import Mathlib

/-!
Verification of the olympus transfer / access / events / price utilities.

Python strings are modelled as `List Char` (`Str`), Python `str.split('.')`
and `'.'.join` as `splitDot` / `joinDot`, and fallible code as `Except` or
`Option`. Decimal arithmetic is modelled exactly over `ℚ`, with the
division-by-zero exception made explicit.
-/

/-- Python `str` modelled as a list of characters. -/
abbrev Str := List Char

/-- Python `s.split('.')`: splits on every dot, `[[]]` on the empty string. -/
def splitDot : Str → List Str
  | [] => [[]]
  | c :: rest =>
    match splitDot rest with
    | [] => [[]]
    | p :: ps => if c = '.' then [] :: p :: ps else (c :: p) :: ps

/-- Python `'.'.join(parts)`. -/
def joinDot : List Str → Str
  | [] => []
  | [p] => p
  | p :: q :: ps => p ++ '.' :: joinDot (q :: ps)

theorem splitDot_ne_nil (s : Str) : splitDot s ≠ [] := by
  induction s with
  | nil => simp [splitDot]
  | cons c rest ih =>
    simp only [splitDot]
    cases h : splitDot rest with
    | nil => simp
    | cons p ps =>
      by_cases hc : c = '.' <;> simp [hc]

theorem splitDot_no_dot (p : Str) (hp : '.' ∉ p) : splitDot p = [p] := by
  induction p with
  | nil => rfl
  | cons c rest ih =>
    simp only [List.mem_cons, not_or] at hp
    simp only [splitDot, ih hp.2]
    have : c ≠ '.' := fun h => hp.1 h.symm
    simp [this]

theorem splitDot_prepend (p : Str) (hp : '.' ∉ p) (t : Str) :
    splitDot (p ++ '.' :: t) = p :: splitDot t := by
  induction p with
  | nil =>
    simp only [List.nil_append, splitDot]
    cases h : splitDot t with
    | nil => exact absurd h (splitDot_ne_nil t)
    | cons q qs => simp
  | cons c rest ih =>
    simp only [List.mem_cons, not_or] at hp
    have hc : c ≠ '.' := fun h => hp.1 h.symm
    simp only [List.cons_append, splitDot, List.append_eq]
    rw [ih hp.2]
    simp [hc]

theorem splitDot_joinDot (ps : List Str) (hne : ps ≠ [])
    (hfree : ∀ p ∈ ps, '.' ∉ p) : splitDot (joinDot ps) = ps := by
  induction ps with
  | nil => exact absurd rfl hne
  | cons p rest ih =>
    cases rest with
    | nil =>
      simp only [joinDot]
      exact splitDot_no_dot p (hfree p (by simp))
    | cons q qs =>
      simp only [joinDot]
      rw [splitDot_prepend p (hfree p (by simp))]
      rw [ih (by simp) (fun r hr => hfree r (List.mem_cons_of_mem p hr))]

/-- The access-scope schema model from `src/schemas/access.py`:
`service.resource.action.selector`. -/
structure AccessScope where
  service : Str
  resource : Str
  action : Str
  selector : Option Str := none
deriving DecidableEq

/-- `AccessScope.from_str`: splits the string on dots; components 0..2 become
service, resource and action, component 3 (when present) the selector.
Fewer than three components raise `IndexError` in the source, modelled as
`none`. -/
def AccessScope.from_str (scope : Str) : Option AccessScope :=
  match splitDot scope with
  | s0 :: s1 :: s2 :: rest =>
    some { service := s0, resource := s1, action := s2, selector := rest.head? }
  | _ => none

/-- Python truthiness filter used in `AccessScope.__str__`: drops `None`
entries and empty strings. -/
def pyFilterTruthy (l : List (Option Str)) : List Str :=
  (l.filterMap id).filter (fun s => s ≠ [])

/-- `AccessScope.__str__`: dot-join of the truthy components. -/
def AccessScope.render (sc : AccessScope) : Str :=
  joinDot (pyFilterTruthy [some sc.service, some sc.resource, some sc.action, sc.selector])

/-- Claim C7: for a string of exactly four non-empty dot-free components,
`AccessScope.from_str` assigns the components in order to service, resource,
action and selector, and `__str__` reproduces the original string; for
exactly three components, the selector is `None` and `__str__` reproduces the
three-part string. -/
theorem accessScope_from_str_round_trip :
    (∀ a b c d : Str, a ≠ [] → b ≠ [] → c ≠ [] → d ≠ [] →
      '.' ∉ a → '.' ∉ b → '.' ∉ c → '.' ∉ d →
      AccessScope.from_str (joinDot [a, b, c, d]) =
        some { service := a, resource := b, action := c, selector := some d } ∧
      AccessScope.render { service := a, resource := b, action := c, selector := some d } =
        joinDot [a, b, c, d]) ∧
    (∀ a b c : Str, a ≠ [] → b ≠ [] → c ≠ [] →
      '.' ∉ a → '.' ∉ b → '.' ∉ c →
      AccessScope.from_str (joinDot [a, b, c]) =
        some { service := a, resource := b, action := c, selector := none } ∧
      AccessScope.render { service := a, resource := b, action := c, selector := none } =
        joinDot [a, b, c]) := by
  constructor
  · intro a b c d ha hb hc hd fa fb fc fd
    have hsplit : splitDot (joinDot [a, b, c, d]) = [a, b, c, d] := by
      apply splitDot_joinDot
      · simp
      · intro p hp
        simp only [List.mem_cons, List.mem_singleton] at hp
        rcases hp with rfl | rfl | rfl | rfl | h
        · exact fa
        · exact fb
        · exact fc
        · exact fd
        · simp at h
    constructor
    · simp [AccessScope.from_str, hsplit]
    · simp [AccessScope.render, pyFilterTruthy, ha, hb, hc, hd]
  · intro a b c ha hb hc fa fb fc
    have hsplit : splitDot (joinDot [a, b, c]) = [a, b, c] := by
      apply splitDot_joinDot
      · simp
      · intro p hp
        simp only [List.mem_cons, List.mem_singleton] at hp
        rcases hp with rfl | rfl | rfl | h
        · exact fa
        · exact fb
        · exact fc
        · simp at h
    constructor
    · simp [AccessScope.from_str, hsplit]
    · simp [AccessScope.render, pyFilterTruthy, ha, hb, hc]

/-- Witness for C7 at the concrete scope strings
`access.users.read.any` and `access.users.read`. -/
theorem accessScope_from_str_round_trip_witness :
    AccessScope.from_str (joinDot [['a'], ['u'], ['r'], ['x']]) =
      some { service := ['a'], resource := ['u'], action := ['r'], selector := some ['x'] } ∧
    AccessScope.render
      { service := ['a'], resource := ['u'], action := ['r'], selector := some ['x'] } =
      joinDot [['a'], ['u'], ['r'], ['x']] ∧
    AccessScope.from_str (joinDot [['a'], ['u'], ['r']]) =
      some { service := ['a'], resource := ['u'], action := ['r'], selector := none } := by
  have h4 := accessScope_from_str_round_trip.1 ['a'] ['u'] ['r'] ['x']
    (by decide) (by decide) (by decide) (by decide)
    (by decide) (by decide) (by decide) (by decide)
  have h3 := accessScope_from_str_round_trip.2 ['a'] ['u'] ['r']
    (by decide) (by decide) (by decide)
    (by decide) (by decide) (by decide)
  exact ⟨h4.1, h4.2, h3.1⟩

/-- Errors raised by `calculate_gross_net` (`src/olympus/utils/price.py`):
`NotImplementedError` for an unknown selling type, and the Decimal
division-by-zero exception when the tax rate is zero. -/
inductive PriceError where
  | notImplemented
  | divisionByZero
deriving DecidableEq

/-- The `tax_rate` computation of `calculate_gross_net`: `Decimal(1)`, or
`Decimal(1) + tax_percentage / 100` when `tax_percentage` is truthy. -/
def pyTaxRate (tax_percentage : Option ℚ) : ℚ :=
  match tax_percentage with
  | some t => if t ≠ 0 then 1 + t / 100 else 1
  | none => 1

theorem pyTaxRate_eq (t : Option ℚ) : pyTaxRate t = 1 + t.getD 0 / 100 := by
  cases t with
  | none => norm_num [pyTaxRate]
  | some t0 =>
    by_cases h : t0 = 0 <;> simp [pyTaxRate, h]

/-- The `calculate_gross_net` of `src/olympus/utils/price.py`, with Decimal
arithmetic modelled exactly over `ℚ`. Returns `(gross, net)`. -/
def calculate_gross_net (product_price : ℚ) (price_selling_type : String)
    (tax_percentage : Option ℚ) (price_includes_tax : Option Bool) :
    Except PriceError (ℚ × ℚ) :=
  if (price_selling_type = "B2C" ∧ (price_includes_tax = none ∨ price_includes_tax = some true))
      ∨ (price_selling_type = "B2B" ∧ price_includes_tax = some true) then
    if pyTaxRate tax_percentage = 0 then .error .divisionByZero
    else .ok (product_price, product_price / pyTaxRate tax_percentage)
  else if (price_selling_type = "B2B" ∧ (price_includes_tax = none ∨ price_includes_tax = some false))
      ∨ (price_selling_type = "B2C" ∧ price_includes_tax = some false) then
    .ok (product_price * pyTaxRate tax_percentage, product_price)
  else
    .error .notImplemented

/-- The older `calculate_gross_net` of `src/utils/price.py`, which has no
`price_includes_tax` parameter. -/
def calculate_gross_net_v0 (product_price : ℚ) (price_selling_type : String)
    (tax_percentage : Option ℚ) : Except PriceError (ℚ × ℚ) :=
  if price_selling_type = "B2C" then
    if pyTaxRate tax_percentage = 0 then .error .divisionByZero
    else .ok (product_price, product_price / pyTaxRate tax_percentage)
  else if price_selling_type = "B2B" then
    .ok (product_price * pyTaxRate tax_percentage, product_price)
  else
    .error .notImplemented

/-- Claim C10: whenever `calculate_gross_net` returns, gross = net × (1 +
tax/100) in exact arithmetic; net is the input price for B2B (unless
`price_includes_tax` is True), gross is the input price for B2C (unless
`price_includes_tax` is False); `NotImplementedError` is raised exactly for
selling types other than B2C/B2B; a `None` or zero tax yields gross = net =
price. The `src/utils/price.py` variant is the specialisation to
`price_includes_tax = None`. -/
theorem calculate_gross_net_spec :
    ∀ (p : ℚ) (ty : String) (t : Option ℚ) (inc : Option Bool),
    (∀ g n, calculate_gross_net p ty t inc = .ok (g, n) →
      g = n * (1 + (t.getD 0) / 100)) ∧
    (ty = "B2B" → inc ≠ some true → ∀ g n,
      calculate_gross_net p ty t inc = .ok (g, n) → n = p) ∧
    (ty = "B2C" → inc ≠ some false → ∀ g n,
      calculate_gross_net p ty t inc = .ok (g, n) → g = p) ∧
    (calculate_gross_net p ty t inc = .error .notImplemented ↔
      (ty ≠ "B2C" ∧ ty ≠ "B2B")) ∧
    ((t = none ∨ t = some 0) → ∀ g n,
      calculate_gross_net p ty t inc = .ok (g, n) → g = p ∧ n = p) ∧
    calculate_gross_net_v0 p ty t = calculate_gross_net p ty t none := by
  intro p ty t inc
  refine ⟨?_, ?_, ?_, ?_, ?_, ?_⟩
  · intro g n hok
    unfold calculate_gross_net at hok
    rw [pyTaxRate_eq] at hok
    split at hok
    · split at hok
      · simp at hok
      · rename_i hz
        simp only [Except.ok.injEq, Prod.mk.injEq] at hok
        rw [← hok.1, ← hok.2]
        exact (div_mul_cancel₀ p hz).symm
    · split at hok
      · simp only [Except.ok.injEq, Prod.mk.injEq] at hok
        rw [← hok.1, ← hok.2]
      · simp at hok
  · intro hty hinc g n hok
    subst hty
    unfold calculate_gross_net at hok
    split at hok
    · rename_i hcond
      rcases hcond with ⟨hb, _⟩ | ⟨_, hb⟩
      · exact absurd hb (by decide)
      · exact absurd hb hinc
    · split at hok
      · simp only [Except.ok.injEq, Prod.mk.injEq] at hok
        exact hok.2.symm
      · simp at hok
  · intro hty hinc g n hok
    subst hty
    unfold calculate_gross_net at hok
    split at hok
    · split at hok
      · simp at hok
      · simp only [Except.ok.injEq, Prod.mk.injEq] at hok
        exact hok.1.symm
    · split at hok
      · rename_i hcond1 hcond2
        rcases hcond2 with ⟨hb, _⟩ | ⟨_, hb⟩
        · exact absurd hb (by decide)
        · exact absurd hb hinc
      · simp at hok
  · unfold calculate_gross_net
    constructor
    · intro herr
      split at herr
      · split at herr <;> simp at herr
      · split at herr
        · simp at herr
        · rename_i h1 h2
          constructor
          · intro hc
            cases inc with
            | none => exact h1 (Or.inl ⟨hc, Or.inl rfl⟩)
            | some b =>
              cases b with
              | true => exact h1 (Or.inl ⟨hc, Or.inr rfl⟩)
              | false => exact h2 (Or.inr ⟨hc, rfl⟩)
          · intro hc
            cases inc with
            | none => exact h2 (Or.inl ⟨hc, Or.inl rfl⟩)
            | some b =>
              cases b with
              | true => exact h1 (Or.inr ⟨hc, rfl⟩)
              | false => exact h2 (Or.inl ⟨hc, Or.inr rfl⟩)
    · rintro ⟨hc1, hc2⟩
      have hno1 : ¬ ((ty = "B2C" ∧ (inc = none ∨ inc = some true))
          ∨ (ty = "B2B" ∧ inc = some true)) := by
        rintro (⟨h, _⟩ | ⟨h, _⟩)
        · exact hc1 h
        · exact hc2 h
      have hno2 : ¬ ((ty = "B2B" ∧ (inc = none ∨ inc = some false))
          ∨ (ty = "B2C" ∧ inc = some false)) := by
        rintro (⟨h, _⟩ | ⟨h, _⟩)
        · exact hc2 h
        · exact hc1 h
      rw [if_neg hno1, if_neg hno2]
  · intro ht g n hok
    have hr : pyTaxRate t = 1 := by
      rcases ht with rfl | rfl <;> simp [pyTaxRate]
    unfold calculate_gross_net at hok
    rw [hr] at hok
    norm_num at hok
    split at hok
    · simp only [Except.ok.injEq, Prod.mk.injEq] at hok
      exact ⟨hok.1.symm, hok.2.symm⟩
    · split at hok
      · simp only [Except.ok.injEq, Prod.mk.injEq] at hok
        exact ⟨hok.1.symm, hok.2.symm⟩
      · simp at hok
  · unfold calculate_gross_net calculate_gross_net_v0
    by_cases h1 : ty = "B2C"
    · subst h1
      simp
    · by_cases h2 : ty = "B2B"
      · subst h2
        have hne : ("B2B" : String) ≠ "B2C" := by decide
        simp [hne]
      · simp [h1, h2]

/-- Witness for C10 at price 100, B2B, 19 percent tax: returns gross 119,
net 100, and 119 = 100 × (1 + 19/100). -/
theorem calculate_gross_net_spec_witness :
    calculate_gross_net 100 "B2B" (some 19) none = .ok (119, 100) ∧
    (119 : ℚ) = 100 * (1 + ((some (19 : ℚ)).getD 0) / 100) := by
  have hok : calculate_gross_net 100 "B2B" (some 19) none = .ok (119, 100) := by
    unfold calculate_gross_net
    rw [pyTaxRate_eq]
    norm_num
    decide
  exact ⟨hok, (calculate_gross_net_spec 100 "B2B" (some 19) none).1 119 100 hok⟩

/-- A Python attribute value in the transfer layer: `None`, a number or a
string (the scalar column types the claims exercise). -/
inductive Value where
  | none
  | int (n : Int)
  | str (s : Str)
deriving DecidableEq

/-- Attribute lookup on a record's attribute store (`getattr` on a loaded ORM
record; a missing attribute reads as `None`, matching an unset column). -/
def getA : List (Str × Value) → Str → Value
  | [], _ => .none
  | (k', v) :: t, k => if k' = k then v else getA t k

/-- Attribute assignment on a record's attribute store (`setattr`). -/
def setA : List (Str × Value) → Str → Value → List (Str × Value)
  | [], k, v => [(k, v)]
  | (k', v') :: t, k, v => if k' = k then (k, v) :: t else (k', v') :: setA t k v

theorem getA_setA_self (l : List (Str × Value)) (k : Str) (v : Value) :
    getA (setA l k v) k = v := by
  induction l with
  | nil => simp [setA, getA]
  | cons hd t ih =>
    obtain ⟨k', v'⟩ := hd
    by_cases h : k' = k
    · simp [setA, getA, h]
    · simp [setA, getA, h, ih]

theorem getA_setA_other (l : List (Str × Value)) (k k' : Str) (v : Value)
    (h : k' ≠ k) : getA (setA l k v) k' = getA l k' := by
  have h' : ¬ (k = k') := fun hh => h hh.symm
  induction l with
  | nil => simp [setA, getA, h']
  | cons hd t ih =>
    obtain ⟨k0, v0⟩ := hd
    by_cases h0 : k0 = k
    · subst h0
      simp [setA, getA, h']
    · simp [setA, getA, h0, ih]

/-- The olympus access token (`AccessToken` of the access schema): the
audience list and the critical flag `crt` used by `check_field_access`. -/
structure AccessTok where
  aud : List Str
  crt : Bool := false

/-- `AccessToken.has_audience` (src/schemas/access.py): the first entry of
`audiences` contained in the token's `aud` list, else `None`. -/
def hasAudience (tok : AccessTok) (audiences : List Str) : Option Str :=
  audiences.find? (fun a => decide (a ∈ tok.aud))

/-- Modelled from the spec: `AccessToken.has_audiences` is called by
`JWTToken.__call__` but the olympus access-schema module defining it is not
under src; by the spec's audience-gating description and by analogy with the
singular `has_audience` of src/schemas/access.py it returns the required
scopes that occur among the token's audiences, in order. -/
def has_audiences (tok : AccessTok) (audiences : List Str) : List Str :=
  audiences.filter (fun a => decide (a ∈ tok.aud))

theorem hasAudience_eq_head_has_audiences (tok : AccessTok) (audiences : List Str) :
    hasAudience tok audiences = (has_audiences tok audiences).head? := by
  induction audiences with
  | nil => rfl
  | cons a rest ih =>
    simp only [hasAudience, has_audiences] at ih ⊢
    by_cases h : a ∈ tok.aud
    · rw [List.find?_cons_of_pos _ (by simpa using h), List.filter_cons_of_pos (by simpa using h)]
      simp
    · rw [List.find?_cons_of_neg _ (by simpa using h), List.filter_cons_of_neg (by simpa using h)]
      exact ih

theorem hasAudience_eq_none_iff (tok : AccessTok) (audiences : List Str) :
    hasAudience tok audiences = none ↔ ∀ a ∈ audiences, a ∉ tok.aud := by
  unfold hasAudience
  rw [List.find?_eq_none]
  simp

theorem hasAudience_isSome_iff (tok : AccessTok) (audiences : List Str) :
    (hasAudience tok audiences).isSome ↔ ∃ a ∈ audiences, a ∈ tok.aud := by
  unfold hasAudience
  rw [List.find?_isSome]
  simp

/-- The `Access` object built by `JWTToken.__call__`: the decoded token, the
scope of the first matching audience and all matching audience scopes. -/
structure Access where
  token : AccessTok
  scope : Option AccessScope := none
  scopes : List AccessScope := []

/-- Outcomes of `JWTToken.__call__` other than a successful `Access`:
the 403 `HTTPException` with error code `required_audience_missing`, and the
`IndexError` escaping `AccessScope.from_str` on a malformed audience. -/
inductive JwtCallErr where
  | httpException (status : Nat) (code : Str)
  | indexError
deriving DecidableEq

/-- `JWTToken.__call__` (src/olympus/security/jwt.py) after a successful
decode: `tok` is the decoded `AccessToken`, `scopes` the security scopes
passed by the framework (`none` models the `None` default). The token decode
itself is a library call and is not modelled. -/
def JWTToken_call : AccessTok → Option (List Str) → Except JwtCallErr Access
  | tok, none => .ok { token := tok }
  | tok, some reqs =>
    if has_audiences tok reqs = [] then
      .error (.httpException 403 "required_audience_missing".data)
    else
      match (has_audiences tok reqs).mapM AccessScope.from_str with
      | none => .error .indexError
      | some aud_scopes => .ok { token := tok, scope := aud_scopes.head?, scopes := aud_scopes }

/-- Claim C5: with a non-empty required-scope list, `JWTToken.__call__`
raises HTTP 403 `required_audience_missing` when none of the required scopes
is among the token's audiences; when at least one is, it returns an `Access`
whose scope is `AccessScope.from_str` of the first matching audience. -/
theorem jwt_call_audience_gating :
    ∀ (tok : AccessTok) (reqs : List Str), reqs ≠ [] →
    ((∀ r ∈ reqs, r ∉ tok.aud) →
      JWTToken_call tok (some reqs) =
        .error (.httpException 403 "required_audience_missing".data)) ∧
    (∀ fst, (∃ r ∈ reqs, r ∈ tok.aud) →
      List.find? (fun r => decide (r ∈ tok.aud)) reqs = some fst →
      ∀ acc, JWTToken_call tok (some reqs) = .ok acc →
        acc.scope = AccessScope.from_str fst) := by
  intro tok reqs _
  constructor
  · intro hnone
    have hempty : has_audiences tok reqs = [] := by
      unfold has_audiences
      rw [List.filter_eq_nil_iff]
      intro a ha
      simpa using hnone a ha
    simp [JWTToken_call, hempty]
  · intro fst hex hfind acc hok
    have hne : has_audiences tok reqs ≠ [] := by
      unfold has_audiences
      intro hc
      obtain ⟨r, hr, hmem⟩ := hex
      have := List.filter_eq_nil_iff.mp hc r hr
      simp [hmem] at this
    simp only [JWTToken_call] at hok
    rw [if_neg hne] at hok
    cases hmm : (has_audiences tok reqs).mapM AccessScope.from_str with
    | none => rw [hmm] at hok; exact absurd hok (by simp)
    | some aud_scopes =>
      rw [hmm] at hok
      simp only [Except.ok.injEq] at hok
      have hhead : (has_audiences tok reqs).head? = some fst := by
        rw [← hasAudience_eq_head_has_audiences]
        exact hfind
      obtain ⟨a, rest, hsplit⟩ : ∃ a rest, has_audiences tok reqs = a :: rest := by
        cases hlist : has_audiences tok reqs with
        | nil => exact absurd hlist hne
        | cons a rest => exact ⟨a, rest, rfl⟩
      rw [hsplit] at hhead hmm
      simp only [List.head?_cons, Option.some.injEq] at hhead
      subst hhead
      rw [List.mapM_cons] at hmm
      cases hfs : AccessScope.from_str a with
      | none => rw [hfs] at hmm; simp at hmm
      | some sc =>
        rw [hfs] at hmm
        cases hrest : rest.mapM AccessScope.from_str with
        | none => rw [hrest] at hmm; simp at hmm
        | some scs =>
          rw [hrest] at hmm
          simp only [Option.pure_def, Option.bind_eq_bind, Option.some_bind,
            Option.some.injEq] at hmm
          rw [← hok, ← hmm]
          simp [hfs]

/-- Witness for C5: token with audiences `[a.b.read]`, required scopes
`[x.y.z, a.b.read]`: the call succeeds and the resulting scope is parsed
from the first matching audience `a.b.read`. -/
theorem jwt_call_audience_gating_witness :
    (JWTToken_call { aud := ["x.y.w".data] } (some ["a.b.read".data]) =
      .error (.httpException 403 "required_audience_missing".data)) ∧
    (∀ acc, JWTToken_call { aud := ["a.b.read".data] }
        (some ["x.y.z".data, "a.b.read".data]) = .ok acc →
      acc.scope = AccessScope.from_str "a.b.read".data) := by
  constructor
  · exact (jwt_call_audience_gating { aud := ["x.y.w".data] } ["a.b.read".data]
      (by simp)).1 (by decide)
  · intro acc hok
    exact (jwt_call_audience_gating { aud := ["a.b.read".data] }
      ["x.y.z".data, "a.b.read".data] (by simp)).2 "a.b.read".data
      (by decide) (by decide) acc hok

/-- The two Django signals `DataChangePublisher.register` subscribes to. -/
inductive PySignal where
  | post_save
  | post_delete
deriving DecidableEq

/-- `DataChangeEvent.DataOperation` (src/olympus/schemas/event.py). -/
inductive DataOperation where
  | CREATE
  | UPDATE
  | DELETE
  | SNAPSHOT
deriving DecidableEq

/-- Python `str.upper()`. -/
def pyUpper (s : Str) : Str := s.map Char.toUpper

/-- The `getattr(DataChangeEvent.DataOperation, name)` lookup used by
`DataChangePublisher.get_data_op`: resolves an enum member by name. -/
def dataOperationOfName (s : Str) : Option DataOperation :=
  if s = "CREATE".data then some .CREATE
  else if s = "UPDATE".data then some .UPDATE
  else if s = "DELETE".data then some .DELETE
  else if s = "SNAPSHOT".data then some .SNAPSHOT
  else none

/-- `DataChangePublisher.action` (src/olympus/events/publish.py): `create`
or `update` on `post_save` depending on the `created` kwarg, `delete` on
`post_delete`. -/
def DataChangePublisher_action (signal : PySignal) (created : Bool) : Str :=
  match signal with
  | .post_save => if created then "create".data else "update".data
  | .post_delete => "delete".data

/-- `DataChangePublisher.get_data_op`: the `DataOperation` member named by
the upper-cased action. -/
def DataChangePublisher_data_op (signal : PySignal) (created : Bool) : Option DataOperation :=
  dataOperationOfName (pyUpper (DataChangePublisher_action signal created))

/-- The class configuration installed by `EventPublisher.__init_subclass__`:
version, type and whether the ORM model is tenant-bound (has `tenant_id`). -/
structure EventPublisherCfg where
  version : Str
  type : Str
  isTenantBound : Bool

/-- `EventPublisher.routing_key`: the dot-join of `get_keys()` = [version,
type, action], with the instance's `tenant_id` appended when the model is
tenant bound. -/
def EventPublisher_routing_key (cfg : EventPublisherCfg) (action : Str) (tenantId : Str) : Str :=
  joinDot (if cfg.isTenantBound then [cfg.version, cfg.type, action, tenantId]
    else [cfg.version, cfg.type, action])

/-- Claim C8: `post_save` with `created=True` publishes action `create` and
data_op CREATE, `post_save` with falsy `created` publishes `update`/UPDATE,
`post_delete` publishes `delete`/DELETE; the routing key is the dot-join of
version, type and action, with `tenant_id` appended exactly when the model
is tenant-bound. -/
theorem dataChangePublisher_signal_mapping :
    (DataChangePublisher_action .post_save true = "create".data ∧
      DataChangePublisher_data_op .post_save true = some .CREATE) ∧
    (DataChangePublisher_action .post_save false = "update".data ∧
      DataChangePublisher_data_op .post_save false = some .UPDATE) ∧
    (∀ created, DataChangePublisher_action .post_delete created = "delete".data ∧
      DataChangePublisher_data_op .post_delete created = some .DELETE) ∧
    (∀ cfg action tenantId,
      (cfg.isTenantBound = true →
        EventPublisher_routing_key cfg action tenantId =
          joinDot [cfg.version, cfg.type, action, tenantId]) ∧
      (cfg.isTenantBound = false →
        EventPublisher_routing_key cfg action tenantId =
          joinDot [cfg.version, cfg.type, action])) := by
  refine ⟨⟨by decide, by decide⟩, ⟨by decide, by decide⟩, ?_, ?_⟩
  · intro created
    exact ⟨rfl, rfl⟩
  · intro cfg action tenantId
    constructor
    · intro h
      unfold EventPublisher_routing_key
      rw [if_pos h]
    · intro h
      unfold EventPublisher_routing_key
      rw [if_neg (by simp [h])]

/-- Witness for C8 with a concrete tenant-bound configuration. -/
theorem dataChangePublisher_signal_mapping_witness :
    DataChangePublisher_data_op .post_save true = some .CREATE ∧
    EventPublisher_routing_key { version := "v1".data, type := "data".data, isTenantBound := true }
        "create".data "t1".data =
      joinDot ["v1".data, "data".data, "create".data, "t1".data] := by
  refine ⟨dataChangePublisher_signal_mapping.1.2, ?_⟩
  exact (dataChangePublisher_signal_mapping.2.2.2
    { version := "v1".data, type := "data".data, isTenantBound := true }
    "create".data "t1".data).1 rfl

/-- A scalar field of a nested (or related-item) schema model: pydantic field
name, the bound ORM column name, the resolved pydantic default used by
`populate_default`, and the access metadata read by `check_field_access`. -/
structure SubField where
  name : Str
  attname : Str
  default : Value := .none
  scopes : List Str := []
  isCritical : Bool := false
deriving DecidableEq

/-- A nested schema-model instance: its `__fields_set__` and field values. -/
structure SubInstance where
  set : List Str
  vals : List (Str × Value)
deriving DecidableEq

/-- An item of a list-shaped schema field: optional `id`, its
`__fields_set__` and its scalar field values. -/
structure SubInput where
  id : Option Nat
  set : List Str
  vals : List (Str × Value)
deriving DecidableEq

/-- The two relation descriptor kinds handled by `transfer_to_orm` for
list-shaped fields. -/
inductive RelKind where
  | m2m
  | revM2O
deriving DecidableEq

/-- A top-level schema field together with its value: a scalar bound to a
column, a field with `orm_field=None`, a nested submodel bound to the same
record, or a list-shaped relation field. -/
inductive TFieldData where
  | scalar (attname : Str) (default : Value) (v : Value)
  | scalarNone
  | subModel (sub : List SubField) (v : Option SubInstance)
  | listRel (kind : RelKind) (sub : List SubField)
      (matching : Option (List (Str × Str))) (targetAtt : Str) (items : List SubInput)
deriving DecidableEq

/-- A top-level schema field of a pydantic model instance. -/
structure TField where
  name : Str
  scopes : List Str := []
  isCritical : Bool := false
  data : TFieldData
deriving DecidableEq

/-- A pydantic model instance: its `__fields_set__` and its fields. -/
structure PObj where
  set : List Str
  fields : List TField
deriving DecidableEq

/-- Error codes of the `AccessError` raised by `check_field_access`:
`field` renders as `access_error.field` and `fieldIsCritical` as
`access_error.field_is_critical`. -/
inductive AccessErrorCode where
  | field
  | fieldIsCritical
deriving DecidableEq

/-- The `AccessError` payload: error code and field location. -/
structure AccessErr where
  code : AccessErrorCode
  loc : List Str
deriving DecidableEq

/-- The location root `['body']` used by `check_field_access`. -/
def bodyLoc : Str := "body".data

/-- The per-field check of `check_field_access`: a non-empty scopes list
must intersect the token's audiences, else `access_error.field`; a field
without scopes but with `is_critical` requires a critical token, else
`access_error.field_is_critical`. -/
def checkLeaf (tok : AccessTok) (loc : List Str) (scopes : List Str) (crit : Bool) :
    Option AccessErr :=
  if scopes ≠ [] then
    if hasAudience tok scopes = none then some ⟨.field, loc⟩ else none
  else if crit && !tok.crt then some ⟨.fieldIsCritical, loc⟩ else none

/-- The nested-dict recursion of `check_field_access` over an explicitly-set
submodel instance. -/
def checkSubFields (tok : AccessTok) (loc : List Str) (inst : SubInstance) :
    List SubField → Option AccessErr
  | [] => none
  | f :: rest =>
    if f.name ∈ inst.set then
      match checkLeaf tok (loc ++ [f.name]) f.scopes f.isCritical with
      | some e => some e
      | none => checkSubFields tok loc inst rest
    else checkSubFields tok loc inst rest

/-- The check of one explicitly-set key of `input.dict(exclude_unset=True)`:
a dict value (a set submodel instance) is recursed into; any other value is
checked as a leaf. -/
def checkTopOne (tok : AccessTok) (f : TField) : Option AccessErr :=
  match f.data with
  | .subModel sub (some inst) => checkSubFields tok [bodyLoc, f.name] inst sub
  | _ => checkLeaf tok [bodyLoc, f.name] f.scopes f.isCritical

/-- The top-level loop of `check_field_access` over the keys of
`input.dict(exclude_unset=True)`. -/
def checkFieldsTop (tok : AccessTok) (set : List Str) : List TField → Option AccessErr
  | [] => none
  | f :: rest =>
    if f.name ∈ set then
      match checkTopOne tok f with
      | some e => some e
      | none => checkFieldsTop tok set rest
    else checkFieldsTop tok set rest

/-- `check_field_access` (src/olympus/utils/pydantic_django.py): returns the
first field-access error, or `none` when the input passes. -/
def check_field_access (input : PObj) (tok : AccessTok) : Option AccessErr :=
  checkFieldsTop tok input.set input.fields

/-- A field (scopes/is_critical metadata) violating the access token, as the
spec describes it: a non-empty scopes list disjoint from the audiences, or
no scopes but `is_critical` against a non-critical token. -/
def violatesLeaf (tok : AccessTok) (scopes : List Str) (crit : Bool) : Prop :=
  (scopes ≠ [] ∧ hasAudience tok scopes = none) ∨
  (scopes = [] ∧ crit = true ∧ tok.crt = false)

/-- A field value that `check_field_access` recurses into instead of
checking: a set nested submodel instance (a dict in the exclude-unset
dump). -/
def isSubInstanceData (d : TFieldData) : Prop :=
  ∃ sub inst, d = TFieldData.subModel sub (some inst)

/-- Existence of an access violation in an input object, one nesting level
deep, as the spec describes it. -/
def fieldViolation (tok : AccessTok) (p : PObj) : Prop :=
  ∃ f ∈ p.fields, f.name ∈ p.set ∧
    ((¬ isSubInstanceData f.data ∧ violatesLeaf tok f.scopes f.isCritical) ∨
     (∃ sub inst, f.data = TFieldData.subModel sub (some inst) ∧
       ∃ sf ∈ sub, sf.name ∈ inst.set ∧ violatesLeaf tok sf.scopes sf.isCritical))

theorem checkLeaf_isSome_iff (tok : AccessTok) (loc : List Str) (scopes : List Str)
    (crit : Bool) : (checkLeaf tok loc scopes crit).isSome ↔ violatesLeaf tok scopes crit := by
  unfold checkLeaf violatesLeaf
  by_cases hs : scopes = []
  · subst hs
    simp only [ne_eq, not_true_eq_false, if_false]
    cases crit <;> cases h : tok.crt <;> simp [h]
  · simp only [ne_eq, hs, not_false_eq_true, if_true]
    cases ha : hasAudience tok scopes <;> simp [ha, hs]

theorem checkLeaf_loc_code (tok : AccessTok) (loc : List Str) (scopes : List Str)
    (crit : Bool) (e : AccessErr) (h : checkLeaf tok loc scopes crit = some e) :
    e.loc = loc ∧ (e.code = .field ↔ scopes ≠ []) := by
  unfold checkLeaf at h
  by_cases hs : scopes = []
  · subst hs
    simp only [ne_eq, not_true_eq_false, if_false] at h
    split at h
    · simp only [Option.some.injEq] at h
      rw [← h]
      simp
    · simp at h
  · simp only [ne_eq, hs, not_false_eq_true, if_true] at h
    split at h
    · simp only [Option.some.injEq] at h
      rw [← h]
      simp [hs]
    · simp at h

theorem checkTopOne_of_not_sub (tok : AccessTok) (f : TField)
    (h : ¬ isSubInstanceData f.data) :
    checkTopOne tok f = checkLeaf tok [bodyLoc, f.name] f.scopes f.isCritical := by
  unfold checkTopOne
  cases hd : f.data with
  | scalar a d v0 => rfl
  | scalarNone => rfl
  | subModel sub v =>
    cases v with
    | some inst => exact absurd ⟨sub, inst, hd⟩ h
    | none => rfl
  | listRel k s m t i => rfl

theorem checkTopOne_of_sub (tok : AccessTok) (f : TField) (sub : List SubField)
    (inst : SubInstance) (hd : f.data = TFieldData.subModel sub (some inst)) :
    checkTopOne tok f = checkSubFields tok [bodyLoc, f.name] inst sub := by
  unfold checkTopOne
  rw [hd]

theorem checkSubFields_isSome_iff (tok : AccessTok) (loc : List Str)
    (inst : SubInstance) (sub : List SubField) :
    (checkSubFields tok loc inst sub).isSome ↔
      ∃ sf ∈ sub, sf.name ∈ inst.set ∧ violatesLeaf tok sf.scopes sf.isCritical := by
  induction sub with
  | nil => simp [checkSubFields]
  | cons f rest ih =>
    by_cases hset : f.name ∈ inst.set
    · simp only [checkSubFields, if_pos hset]
      cases hc : checkLeaf tok (loc ++ [f.name]) f.scopes f.isCritical with
      | some e =>
        have hviol := (checkLeaf_isSome_iff tok (loc ++ [f.name]) f.scopes f.isCritical).mp
          (by rw [hc]; rfl)
        simp only [Option.isSome_some, true_iff]
        exact ⟨f, by simp, hset, hviol⟩
      | none =>
        rw [ih]
        constructor
        · rintro ⟨sf, hmem, hst, hv⟩
          exact ⟨sf, List.mem_cons_of_mem f hmem, hst, hv⟩
        · rintro ⟨sf, hmem, hst, hv⟩
          rcases List.mem_cons.mp hmem with rfl | hmem'
          · have := (checkLeaf_isSome_iff tok (loc ++ [sf.name]) sf.scopes sf.isCritical).mpr hv
            rw [hc] at this
            simp at this
          · exact ⟨sf, hmem', hst, hv⟩
    · simp only [checkSubFields, if_neg hset]
      rw [ih]
      constructor
      · rintro ⟨sf, hmem, hst, hv⟩
        exact ⟨sf, List.mem_cons_of_mem f hmem, hst, hv⟩
      · rintro ⟨sf, hmem, hst, hv⟩
        rcases List.mem_cons.mp hmem with rfl | hmem'
        · exact absurd hst hset
        · exact ⟨sf, hmem', hst, hv⟩

theorem checkSubFields_eq_some (tok : AccessTok) (loc : List Str)
    (inst : SubInstance) (sub : List SubField) (e : AccessErr)
    (h : checkSubFields tok loc inst sub = some e) :
    ∃ sf ∈ sub, sf.name ∈ inst.set ∧
      checkLeaf tok (loc ++ [sf.name]) sf.scopes sf.isCritical = some e := by
  induction sub with
  | nil => simp [checkSubFields] at h
  | cons f rest ih =>
    by_cases hset : f.name ∈ inst.set
    · simp only [checkSubFields, if_pos hset] at h
      cases hc : checkLeaf tok (loc ++ [f.name]) f.scopes f.isCritical with
      | some e' =>
        rw [hc] at h
        simp only [Option.some.injEq] at h
        exact ⟨f, by simp, hset, by rw [hc, h]⟩
      | none =>
        rw [hc] at h
        obtain ⟨sf, hmem, hst, hcl⟩ := ih h
        exact ⟨sf, List.mem_cons_of_mem f hmem, hst, hcl⟩
    · simp only [checkSubFields, if_neg hset] at h
      obtain ⟨sf, hmem, hst, hcl⟩ := ih h
      exact ⟨sf, List.mem_cons_of_mem f hmem, hst, hcl⟩

theorem checkTopOne_isSome_iff (tok : AccessTok) (f : TField) :
    (checkTopOne tok f).isSome ↔
      ((¬ isSubInstanceData f.data ∧ violatesLeaf tok f.scopes f.isCritical) ∨
       (∃ sub inst, f.data = TFieldData.subModel sub (some inst) ∧
         ∃ sf ∈ sub, sf.name ∈ inst.set ∧ violatesLeaf tok sf.scopes sf.isCritical)) := by
  by_cases hsi : isSubInstanceData f.data
  · obtain ⟨sub, inst, hd⟩ := hsi
    rw [checkTopOne_of_sub tok f sub inst hd, checkSubFields_isSome_iff]
    constructor
    · rintro ⟨sf, hmem, hst, hv⟩
      exact Or.inr ⟨sub, inst, hd, sf, hmem, hst, hv⟩
    · rintro (⟨hnsi, _⟩ | ⟨sub', inst', hd', sf, hmem, hst, hv⟩)
      · exact absurd ⟨sub, inst, hd⟩ hnsi
      · rw [hd] at hd'
        injection hd' with h1 h2
        subst h1
        injection h2 with h3
        subst h3
        exact ⟨sf, hmem, hst, hv⟩
  · rw [checkTopOne_of_not_sub tok f hsi, checkLeaf_isSome_iff]
    constructor
    · intro hv
      exact Or.inl ⟨hsi, hv⟩
    · rintro (⟨_, hv⟩ | ⟨sub, inst, hd, _⟩)
      · exact hv
      · exact absurd ⟨sub, inst, hd⟩ hsi

theorem checkFieldsTop_isSome_iff (tok : AccessTok) (set : List Str)
    (fields : List TField) :
    (checkFieldsTop tok set fields).isSome ↔
      ∃ f ∈ fields, f.name ∈ set ∧
        ((¬ isSubInstanceData f.data ∧ violatesLeaf tok f.scopes f.isCritical) ∨
         (∃ sub inst, f.data = TFieldData.subModel sub (some inst) ∧
           ∃ sf ∈ sub, sf.name ∈ inst.set ∧ violatesLeaf tok sf.scopes sf.isCritical)) := by
  induction fields with
  | nil => simp [checkFieldsTop]
  | cons f rest ih =>
    by_cases hset : f.name ∈ set
    · simp only [checkFieldsTop, if_pos hset]
      cases hc : checkTopOne tok f with
      | some e =>
        have hviol := (checkTopOne_isSome_iff tok f).mp (by rw [hc]; rfl)
        simp only [Option.isSome_some, true_iff]
        exact ⟨f, by simp, hset, hviol⟩
      | none =>
        rw [ih]
        constructor
        · rintro ⟨g, hmem, hst, hv⟩
          exact ⟨g, List.mem_cons_of_mem f hmem, hst, hv⟩
        · rintro ⟨g, hmem, hst, hv⟩
          rcases List.mem_cons.mp hmem with rfl | hmem'
          · have := (checkTopOne_isSome_iff tok g).mpr hv
            rw [hc] at this
            simp at this
          · exact ⟨g, hmem', hst, hv⟩
    · simp only [checkFieldsTop, if_neg hset]
      rw [ih]
      constructor
      · rintro ⟨g, hmem, hst, hv⟩
        exact ⟨g, List.mem_cons_of_mem f hmem, hst, hv⟩
      · rintro ⟨g, hmem, hst, hv⟩
        rcases List.mem_cons.mp hmem with rfl | hmem'
        · exact absurd hst hset
        · exact ⟨g, hmem', hst, hv⟩

theorem checkFieldsTop_eq_some (tok : AccessTok) (set : List Str)
    (fields : List TField) (e : AccessErr)
    (h : checkFieldsTop tok set fields = some e) :
    ∃ f ∈ fields, f.name ∈ set ∧
      ((¬ isSubInstanceData f.data ∧
          checkLeaf tok [bodyLoc, f.name] f.scopes f.isCritical = some e) ∨
       (∃ sub inst, f.data = TFieldData.subModel sub (some inst) ∧
         ∃ sf ∈ sub, sf.name ∈ inst.set ∧
           checkLeaf tok [bodyLoc, f.name, sf.name] sf.scopes sf.isCritical = some e)) := by
  induction fields with
  | nil => simp [checkFieldsTop] at h
  | cons f rest ih =>
    by_cases hset : f.name ∈ set
    · simp only [checkFieldsTop, if_pos hset] at h
      cases hc : checkTopOne tok f with
      | some e' =>
        rw [hc] at h
        simp only [Option.some.injEq] at h
        subst h
        by_cases hsi : isSubInstanceData f.data
        · obtain ⟨sub, inst, hd⟩ := hsi
          rw [checkTopOne_of_sub tok f sub inst hd] at hc
          obtain ⟨sf, hmem, hst, hcl⟩ := checkSubFields_eq_some tok [bodyLoc, f.name] inst sub e' hc
          exact ⟨f, by simp, hset, Or.inr ⟨sub, inst, hd, sf, hmem, hst, by simpa using hcl⟩⟩
        · rw [checkTopOne_of_not_sub tok f hsi] at hc
          exact ⟨f, by simp, hset, Or.inl ⟨hsi, hc⟩⟩
      | none =>
        rw [hc] at h
        obtain ⟨g, hmem, hst, hv⟩ := ih h
        exact ⟨g, List.mem_cons_of_mem f hmem, hst, hv⟩
    · simp only [checkFieldsTop, if_neg hset] at h
      obtain ⟨g, hmem, hst, hv⟩ := ih h
      exact ⟨g, List.mem_cons_of_mem f hmem, hst, hv⟩

/-- Claim C6, amended: `check_field_access` raises `AccessError` if and only
if some explicitly-set field whose value is not a set submodel instance —
either at top level or inside an explicitly-set submodel instance — declares
a non-empty scopes list none of whose entries is among the token's audiences
(error code `access_error.field`), or declares no scopes but `is_critical`
while the token is not critical (error code `access_error.field_is_critical`);
the error carries the offending field's location under `['body', ...]`. The
original claim's single error code `access_error.field` for both cases is
refuted by `check_field_access_code_counterexample`. -/
theorem check_field_access_spec (p : PObj) (tok : AccessTok) :
    ((check_field_access p tok).isSome ↔ fieldViolation tok p) ∧
    (∀ e, check_field_access p tok = some e →
      ∃ f ∈ p.fields, f.name ∈ p.set ∧
        ((¬ isSubInstanceData f.data ∧ violatesLeaf tok f.scopes f.isCritical ∧
            e.loc = [bodyLoc, f.name] ∧ (e.code = .field ↔ f.scopes ≠ [])) ∨
         (∃ sub inst, f.data = TFieldData.subModel sub (some inst) ∧
           ∃ sf ∈ sub, sf.name ∈ inst.set ∧ violatesLeaf tok sf.scopes sf.isCritical ∧
             e.loc = [bodyLoc, f.name, sf.name] ∧ (e.code = .field ↔ sf.scopes ≠ [])))) := by
  constructor
  · rw [show check_field_access p tok = checkFieldsTop tok p.set p.fields from rfl,
      checkFieldsTop_isSome_iff]
    unfold fieldViolation
    rfl
  · intro e h
    obtain ⟨f, hmem, hset, hv⟩ :=
      checkFieldsTop_eq_some tok p.set p.fields e h
    refine ⟨f, hmem, hset, ?_⟩
    rcases hv with ⟨hnsi, hcl⟩ | ⟨sub, inst, hd, sf, hsmem, hsst, hcl⟩
    · obtain ⟨hloc, hcode⟩ := checkLeaf_loc_code tok [bodyLoc, f.name] f.scopes f.isCritical e hcl
      have hvl := (checkLeaf_isSome_iff tok [bodyLoc, f.name] f.scopes f.isCritical).mp
        (by rw [hcl]; rfl)
      exact Or.inl ⟨hnsi, hvl, hloc, hcode⟩
    · obtain ⟨hloc, hcode⟩ :=
        checkLeaf_loc_code tok [bodyLoc, f.name, sf.name] sf.scopes sf.isCritical e hcl
      have hvl := (checkLeaf_isSome_iff tok [bodyLoc, f.name, sf.name] sf.scopes sf.isCritical).mp
        (by rw [hcl]; rfl)
      exact Or.inr ⟨sub, inst, hd, sf, hsmem, hsst, hvl, hloc, hcode⟩

/-- Counterexample to C6 as stated: an explicitly-set field declaring
`is_critical` against a non-critical token raises the error code
`access_error.field_is_critical`, not `access_error.field` as the claim
says. -/
theorem check_field_access_code_counterexample :
    check_field_access
        { set := ["n".data],
          fields := [{ name := "n".data, isCritical := true,
                       data := TFieldData.scalar "a".data .none .none }] }
        { aud := [], crt := false } =
      some { code := .fieldIsCritical, loc := [bodyLoc, "n".data] } ∧
    AccessErrorCode.fieldIsCritical ≠ AccessErrorCode.field := by
  constructor
  · rfl
  · decide

/-- Witness for C6 applied at the concrete critical-field input. -/
theorem check_field_access_spec_witness :
    ∃ f ∈ [{ name := "n".data, isCritical := true,
             data := TFieldData.scalar "a".data .none .none : TField }],
      TField.name f ∈ ["n".data] ∧
      ((¬ isSubInstanceData f.data ∧
          violatesLeaf { aud := [], crt := false } f.scopes f.isCritical ∧
          ({ code := .fieldIsCritical, loc := [bodyLoc, "n".data] } : AccessErr).loc =
            [bodyLoc, f.name] ∧
          (({ code := .fieldIsCritical, loc := [bodyLoc, "n".data] } : AccessErr).code =
            .field ↔ f.scopes ≠ [])) ∨
       (∃ sub inst, f.data = TFieldData.subModel sub (some inst) ∧
         ∃ sf ∈ sub, sf.name ∈ inst.set ∧
           violatesLeaf { aud := [], crt := false } sf.scopes sf.isCritical ∧
           ({ code := .fieldIsCritical, loc := [bodyLoc, "n".data] } : AccessErr).loc =
             [bodyLoc, f.name, sf.name] ∧
           (({ code := .fieldIsCritical, loc := [bodyLoc, "n".data] } : AccessErr).code =
             .field ↔ sf.scopes ≠ []))) :=
  (check_field_access_spec
    { set := ["n".data],
      fields := [{ name := "n".data, isCritical := true,
                   data := TFieldData.scalar "a".data .none .none }] }
    { aud := [], crt := false }).2
    { code := .fieldIsCritical, loc := [bodyLoc, "n".data] } rfl

/-- Errors escaping the transfer layer: `NotImplementedError`,
`IndexError` from `AccessScope.from_str`, Django's
`MultipleObjectsReturned` from `.get`, and the `AssertionError` for
subobjects without an action. -/
inductive TransferErr where
  | notImplemented
  | indexError
  | multipleObjectsReturned
  | assertionError
deriving DecidableEq

/-- A loaded Django record as read by `transfer_from_orm`: its attributes
and, when the model defines `check_access`, a predicate telling for which
scope selector the access check raises `AccessError`. -/
structure DjObj where
  attrs : List (Str × Value)
  checkAccess : Option (Option Str → Bool) := none

/-- The scope string `read`, the action gating reads. -/
def readAction : Str := "read".data

/-- The scope gate of `transfer_from_orm` on one field value: with an access
in context and declared scopes containing read scopes, the value is blanked
to `None` when the token's audiences cover none of the (re-rendered) read
scopes, or when the record's `check_access` rejects a read scope's
selector. -/
def gateValue (value : Value) (ctx : Option AccessTok) (obj : DjObj)
    (scopes : List AccessScope) : Value :=
  if scopes = [] then value
  else
    match ctx with
    | none => value
    | some tok =>
      let read_scopes := (scopes.filter (fun sc => sc.action = readAction)).map AccessScope.render
      if read_scopes = [] then value
      else if hasAudience tok read_scopes = none then .none
      else
        match obj.checkAccess with
        | none => value
        | some ca =>
          if (scopes.filter (fun sc => sc.action = readAction)).any (fun sc => ca sc.selector)
          then .none
          else value

/-- The value `transfer_from_orm` produces for one singleton scalar field
bound to a plain column: the column value run through the scope gate;
`IndexError` when a declared scope string does not parse. -/
def fieldValue (ctx : Option AccessTok) (obj : DjObj) (f : SubField) :
    Except TransferErr Value :=
  match f.scopes.mapM AccessScope.from_str with
  | none => .error .indexError
  | some scopes => .ok (gateValue (getA obj.attrs f.attname) ctx obj scopes)

/-- `transfer_from_orm` (src/olympus/utils/pydantic_django.py) restricted to
the fragment the claims quantify over: a flat schema of singleton scalar
fields, each bound through `orm_field` to a plain column of `obj`. Produces
the keyword values handed to `pydantic_cls.construct`. -/
def transfer_from_orm (schema : List SubField) (obj : DjObj) (ctx : Option AccessTok) :
    Except TransferErr (List (Str × Value)) :=
  match schema with
  | [] => .ok []
  | f :: rest =>
    match fieldValue ctx obj f with
    | .error e => .error e
    | .ok v =>
      match transfer_from_orm rest obj ctx with
      | .error e => .error e
      | .ok out => .ok ((f.name, v) :: out)

theorem transfer_from_orm_ok_get (schema : List SubField) (obj : DjObj)
    (ctx : Option AccessTok) (out : List (Str × Value))
    (hnd : (schema.map SubField.name).Nodup)
    (hok : transfer_from_orm schema obj ctx = .ok out) :
    ∀ f ∈ schema, ∃ v, fieldValue ctx obj f = .ok v ∧ getA out f.name = v := by
  induction schema generalizing out with
  | nil => simp
  | cons g rest ih =>
    simp only [transfer_from_orm] at hok
    cases hg : fieldValue ctx obj g with
    | error e => rw [hg] at hok; simp at hok
    | ok vg =>
      rw [hg] at hok
      cases hrest : transfer_from_orm rest obj ctx with
      | error e => rw [hrest] at hok; simp at hok
      | ok out' =>
        rw [hrest] at hok
        simp only [Except.ok.injEq] at hok
        subst hok
        simp only [List.map_cons, List.nodup_cons] at hnd
        intro f hf
        rcases List.mem_cons.mp hf with rfl | hf'
        · exact ⟨vg, hg, by simp [getA]⟩
        · have hne : g.name ≠ f.name := by
            intro hc
            exact hnd.1 (hc ▸ List.mem_map_of_mem SubField.name hf')
          obtain ⟨v, hv, hget⟩ := ih out' hnd.2 hrest f hf'
          exact ⟨v, hv, by simp [getA, hne, hget]⟩

theorem gateValue_no_ctx (v : Value) (obj : DjObj) (scopes : List AccessScope) :
    gateValue v none obj scopes = v := by
  unfold gateValue
  by_cases hs : scopes = [] <;> simp [hs]

theorem gateValue_no_scopes (v : Value) (ctx : Option AccessTok) (obj : DjObj) :
    gateValue v ctx obj [] = v := by
  simp [gateValue]

theorem gateValue_no_audience (v : Value) (tok : AccessTok) (obj : DjObj)
    (scopes : List AccessScope)
    (hrs : (scopes.filter (fun sc => sc.action = readAction)).map AccessScope.render ≠ [])
    (hnone : hasAudience tok
      ((scopes.filter (fun sc => sc.action = readAction)).map AccessScope.render) = none) :
    gateValue v (some tok) obj scopes = .none := by
  have hs : scopes ≠ [] := by
    intro hc
    subst hc
    simp at hrs
  unfold gateValue
  rw [if_neg hs]
  simp only [hrs, if_false, hnone, if_true]

theorem gateValue_check_reject (v : Value) (tok : AccessTok) (obj : DjObj)
    (scopes : List AccessScope) (ca : Option Str → Bool)
    (hca : obj.checkAccess = some ca)
    (hrs : (scopes.filter (fun sc => sc.action = readAction)).map AccessScope.render ≠ [])
    (hany : (scopes.filter (fun sc => sc.action = readAction)).any (fun sc => ca sc.selector)
      = true) :
    gateValue v (some tok) obj scopes = .none := by
  have hs : scopes ≠ [] := by
    intro hc
    subst hc
    simp at hrs
  unfold gateValue
  rw [if_neg hs]
  cases haud : hasAudience tok
      ((scopes.filter (fun sc => sc.action = readAction)).map AccessScope.render) with
  | none => simp only [hrs, if_false, haud, if_true]
  | some a => simp [hrs, haud, hca, hany]

/-- Claim C4: field-level read gating in `transfer_from_orm`. With an access
in context, a field whose declared scopes contain read scopes is blanked to
`None` when the token's audiences contain none of those read scopes, and
also when the record's `check_access` rejects a read scope's selector;
fields without scopes are copied through unchanged, and with no access in
context the scopes are ignored. -/
theorem transfer_from_orm_read_gating (schema : List SubField) (obj : DjObj) :
    (∀ out, transfer_from_orm schema obj none = .ok out →
      (schema.map SubField.name).Nodup →
      ∀ f ∈ schema, getA out f.name = getA obj.attrs f.attname) ∧
    (∀ tok out, transfer_from_orm schema obj (some tok) = .ok out →
      (schema.map SubField.name).Nodup →
      ∀ f ∈ schema, f.scopes = [] → getA out f.name = getA obj.attrs f.attname) ∧
    (∀ tok out, transfer_from_orm schema obj (some tok) = .ok out →
      (schema.map SubField.name).Nodup →
      ∀ f ∈ schema, ∀ scopes, f.scopes.mapM AccessScope.from_str = some scopes →
      (scopes.filter (fun sc => sc.action = readAction)).map AccessScope.render ≠ [] →
      hasAudience tok
        ((scopes.filter (fun sc => sc.action = readAction)).map AccessScope.render) = none →
      getA out f.name = .none) ∧
    (∀ tok out ca, transfer_from_orm schema obj (some tok) = .ok out →
      (schema.map SubField.name).Nodup → obj.checkAccess = some ca →
      ∀ f ∈ schema, ∀ scopes, f.scopes.mapM AccessScope.from_str = some scopes →
      (scopes.filter (fun sc => sc.action = readAction)).map AccessScope.render ≠ [] →
      (scopes.filter (fun sc => sc.action = readAction)).any (fun sc => ca sc.selector) = true →
      getA out f.name = .none) := by
  refine ⟨?_, ?_, ?_, ?_⟩
  · intro out hok hnd f hf
    obtain ⟨v, hv, hget⟩ := transfer_from_orm_ok_get schema obj none out hnd hok f hf
    unfold fieldValue at hv
    cases hm : f.scopes.mapM AccessScope.from_str with
    | none => rw [hm] at hv; simp at hv
    | some scopes =>
      rw [hm] at hv
      simp only [Except.ok.injEq] at hv
      rw [hget, ← hv, gateValue_no_ctx]
  · intro tok out hok hnd f hf hsc
    obtain ⟨v, hv, hget⟩ := transfer_from_orm_ok_get schema obj (some tok) out hnd hok f hf
    unfold fieldValue at hv
    rw [hsc] at hv
    simp only [List.mapM_nil, Option.pure_def, Option.some.injEq, Except.ok.injEq] at hv
    rw [hget, ← hv, gateValue_no_scopes]
  · intro tok out hok hnd f hf scopes hm hrs hnone
    obtain ⟨v, hv, hget⟩ := transfer_from_orm_ok_get schema obj (some tok) out hnd hok f hf
    unfold fieldValue at hv
    rw [hm] at hv
    simp only [Except.ok.injEq] at hv
    rw [hget, ← hv, gateValue_no_audience _ tok obj scopes hrs hnone]
  · intro tok out ca hok hnd hca f hf scopes hm hrs hany
    obtain ⟨v, hv, hget⟩ := transfer_from_orm_ok_get schema obj (some tok) out hnd hok f hf
    unfold fieldValue at hv
    rw [hm] at hv
    simp only [Except.ok.injEq] at hv
    rw [hget, ← hv, gateValue_check_reject _ tok obj scopes ca hca hrs hany]

/-- Witness for C4: a field with read scope `svc.res.read` is blanked for a
token without that audience, and copied for a token with it. -/
theorem transfer_from_orm_read_gating_witness :
    ∀ out, transfer_from_orm
        [{ name := "n".data, attname := "a".data, scopes := ["svc.res.read".data] }]
        { attrs := [("a".data, Value.int 7)] } (some { aud := [] }) = .ok out →
      getA out "n".data = .none := by
  intro out hok
  refine (transfer_from_orm_read_gating
    [{ name := "n".data, attname := "a".data, scopes := ["svc.res.read".data] }]
    { attrs := [("a".data, Value.int 7)] }).2.2.1 { aud := [] } out hok (by decide)
    { name := "n".data, attname := "a".data, scopes := ["svc.res.read".data] } (by simp)
    [{ service := "svc".data, resource := "res".data, action := "read".data, selector := none }]
    (by decide) (by decide) (by decide)

/-- `TransferAction` (src/olympus/utils/pydantic_django.py). -/
inductive TransferAction where
  | CREATE
  | SYNC
  | NO_SUBOBJECTS
deriving DecidableEq

/-- Python truthiness of `getattr(val, 'id', None)`: a zero id is falsy. -/
def pyId : Option Nat → Option Nat
  | some n => if n ≠ 0 then some n else none
  | none => none

/-- A persisted related record (a row of the related model, or a row of an
m2m through model, whose target foreign key is one of its attributes). -/
structure SubObj where
  id : Nat
  parent : Nat
  attrs : List (Str × Value)
deriving DecidableEq

/-- The recursive `transfer_to_orm` of a sub-instance's flat scalar fields
onto a record's attributes, honouring `exclude_unset`. -/
def applySub (sub : List SubField) (excl : Bool) (iset : List Str)
    (vals : List (Str × Value)) (attrs : List (Str × Value)) : List (Str × Value) :=
  match sub with
  | [] => attrs
  | f :: rest =>
    applySub rest excl iset vals
      (if excl ∧ f.name ∉ iset then attrs else setA attrs f.attname (getA vals f.name))

/-- `populate_default` of `transfer_to_orm`: assigns every nested field's
resolved default to its column. -/
def populateDefault (sub : List SubField) (attrs : List (Str × Value)) :
    List (Str × Value) :=
  match sub with
  | [] => attrs
  | f :: rest => populateDefault rest (setA attrs f.attname f.default)

/-- The database state seen by `transfer_to_orm`: the in-memory parent
record's attributes, the reverse many-to-one related table, the m2m through
table, and the next autogenerated primary key. -/
structure OrmState where
  obj : List (Str × Value)
  rel : List SubObj
  thr : List SubObj
  fresh : Nat
deriving DecidableEq

/-- Saving a record: an UPDATE of the row with its primary key when present,
an INSERT otherwise. -/
def upsertSub (table : List SubObj) (o : SubObj) : List SubObj :=
  if table.any (fun r => decide (r.id = o.id)) then
    table.map (fun r => if r.id = o.id then o else r)
  else table ++ [o]

/-- The atomic save-and-delete block of `transfer_to_orm`: saves every
collected subobject in order, then deletes the stale records. -/
def applySync (table : List SubObj) (objs : List SubObj) (dels : List Nat) :
    List SubObj :=
  (objs.foldl upsertSub table).filter (fun r => decide (r.id ∉ dels))

/-- The `get_subobj` closure of the `ReverseManyToOneDescriptor` branch of
`transfer_to_orm`: with SYNC, a truthy input id is looked up by id and
parent; otherwise `sync_matching` columns are compared; a missing record (or
no way to match) creates a new one, carrying the input id when truthy. -/
def revGetSubObj (action : Option TransferAction) (matching : Option (List (Str × Str)))
    (parentId : Nat) (rel : List SubObj) (fresh : Nat) (v : SubInput) :
    Except TransferErr (SubObj × Nat) :=
  if (action = some .SYNC ∧ pyId v.id = none ∧ matching = none) ∨ action = some .CREATE then
    match pyId v.id with
    | some i => .ok ({ id := i, parent := parentId, attrs := [] }, fresh)
    | none => .ok ({ id := fresh, parent := parentId, attrs := [] }, fresh + 1)
  else if action = some .SYNC then
    match pyId v.id with
    | some i =>
      match rel.filter (fun r => decide (r.id = i ∧ r.parent = parentId)) with
      | [] => .ok ({ id := i, parent := parentId, attrs := [] }, fresh)
      | [r] => .ok (r, fresh)
      | _ => .error .multipleObjectsReturned
    | none =>
      match matching with
      | some keys =>
        match rel.filter (fun r => decide (r.parent = parentId ∧
            ∀ kv ∈ keys, getA r.attrs kv.2 = getA v.vals kv.1)) with
        | [] => .ok ({ id := fresh, parent := parentId, attrs := [] }, fresh + 1)
        | [r] => .ok (r, fresh)
        | _ => .error .multipleObjectsReturned
      | none => .error .notImplemented
  else .error .notImplemented

/-- The `get_subobj` closure of the `ManyToManyDescriptor` branch of
`transfer_to_orm`: the input must carry a truthy id (the target's primary
key); with SYNC the through row is looked up by source and target, a missing
row is created (with an autogenerated row id). -/
def m2mGetSubObj (action : Option TransferAction) (parentId : Nat) (targetAtt : Str)
    (thr : List SubObj) (fresh : Nat) (v : SubInput) :
    Except TransferErr (SubObj × Nat) :=
  match pyId v.id with
  | none => .error .notImplemented
  | some tid =>
    if action = some .CREATE then
      .ok ({ id := fresh, parent := parentId, attrs := [(targetAtt, Value.int tid)] }, fresh + 1)
    else if action = some .SYNC then
      match thr.filter (fun r => decide (r.parent = parentId ∧
          getA r.attrs targetAtt = Value.int tid)) with
      | [] => .ok ({ id := fresh, parent := parentId, attrs := [(targetAtt, Value.int tid)] },
          fresh + 1)
      | [r] => .ok (r, fresh)
      | _ => .error .multipleObjectsReturned
    else .error .notImplemented

/-- The accumulator of the per-item loop over a list-shaped field: collected
subobjects, the not-yet-matched existing record ids, and the id counter. -/
structure SyncAcc where
  subobjects : List SubObj
  existingIds : List Nat
  fresh : Nat
deriving DecidableEq

/-- The recursive `transfer_to_orm` call on one list item: the item's scalar
fields are transferred onto the resolved sub-record. -/
def syncStep (sub : List SubField) (excl : Bool) (v : SubInput) (so : SubObj) : SubObj :=
  { so with attrs := applySub sub excl v.set v.vals so.attrs }

/-- The per-item loop of `transfer_to_orm` over a list-shaped field's value:
resolve the sub-record, discard its id from the stale set, record it for
saving, and transfer the item's scalar fields onto it. -/
def syncLoop (getObj : Nat → SubInput → Except TransferErr (SubObj × Nat))
    (sub : List SubField) (excl : Bool) :
    List SubInput → SyncAcc → Except TransferErr SyncAcc
  | [], acc => .ok acc
  | v :: rest, acc =>
    match getObj acc.fresh v with
    | .error e => .error e
    | .ok (so, fresh') =>
      syncLoop getObj sub excl rest
        { subobjects := acc.subobjects ++ [syncStep sub excl v so],
          existingIds := acc.existingIds.filter
            (fun i => decide (i ≠ (syncStep sub excl v so).id)),
          fresh := fresh' }

/-- The output of the field loop of `transfer_to_orm` before the atomic
block: the updated in-memory parent attributes, the subobjects to save and
the stale record ids to delete on SYNC, per table. -/
structure TransferOut where
  obj : List (Str × Value)
  subRev : List SubObj
  subThr : List SubObj
  delRev : List Nat
  delThr : List Nat
  fresh : Nat
deriving DecidableEq

/-- Processing of one schema field by `transfer_to_orm`'s main loop. -/
def processField (excl : Bool) (action : Option TransferAction) (pset : List Str)
    (parentId : Nat) (rel thr : List SubObj) (f : TField) (acc : TransferOut) :
    Except TransferErr TransferOut :=
  match f.data with
  | .scalar attname _ v =>
    if excl ∧ f.name ∉ pset then .ok acc
    else .ok { acc with obj := setA acc.obj attname v }
  | .scalarNone => .ok acc
  | .subModel sub vOpt =>
    match vOpt with
    | none =>
      if excl ∧ f.name ∉ pset then .ok acc
      else .ok { acc with obj := populateDefault sub acc.obj }
    | some inst => .ok { acc with obj := applySub sub excl inst.set inst.vals acc.obj }
  | .listRel kind sub matching targetAtt items =>
    if items = [] then .ok acc
    else
      match kind with
      | .revM2O =>
        match syncLoop (revGetSubObj action matching parentId rel) sub excl items
            { subobjects := [],
              existingIds := if action = some TransferAction.SYNC then
                  ((rel.filter (fun r => decide (r.parent = parentId))).map SubObj.id)
                else [],
              fresh := acc.fresh } with
        | .error e => .error e
        | .ok lacc => .ok { acc with
            subRev := acc.subRev ++ lacc.subobjects,
            delRev := acc.delRev ++ lacc.existingIds,
            fresh := lacc.fresh }
      | .m2m =>
        match syncLoop (m2mGetSubObj action parentId targetAtt thr) sub excl items
            { subobjects := [],
              existingIds := if action = some TransferAction.SYNC then
                  ((thr.filter (fun r => decide (r.parent = parentId))).map SubObj.id)
                else [],
              fresh := acc.fresh } with
        | .error e => .error e
        | .ok lacc => .ok { acc with
            subThr := acc.subThr ++ lacc.subobjects,
            delThr := acc.delThr ++ lacc.existingIds,
            fresh := lacc.fresh }

/-- The main field loop of `transfer_to_orm`. -/
def processFields (excl : Bool) (action : Option TransferAction) (pset : List Str)
    (parentId : Nat) (rel thr : List SubObj) :
    List TField → TransferOut → Except TransferErr TransferOut
  | [], acc => .ok acc
  | f :: rest, acc =>
    match processField excl action pset parentId rel thr f acc with
    | .error e => .error e
    | .ok acc' => processFields excl action pset parentId rel thr rest acc'

/-- `transfer_to_orm` (src/olympus/utils/pydantic_django.py): walks the
schema fields reflecting them onto the record and the related tables, then —
when an action is given — runs the atomic block: save the parent, save the
collected subobjects (unless NO_SUBOBJECTS), and on SYNC delete the stale
related records. With subobjects but no action the source raises
`AssertionError`; with no action nothing is persisted, only the in-memory
parent attributes change. -/
def transfer_to_orm (p : PObj) (excl : Bool) (action : Option TransferAction)
    (parentId : Nat) (st : OrmState) : Except TransferErr OrmState :=
  match processFields excl action p.set parentId st.rel st.thr p.fields
      { obj := st.obj, subRev := [], subThr := [], delRev := [], delThr := [],
        fresh := st.fresh } with
  | .error e => .error e
  | .ok out =>
    if (out.subRev ≠ [] ∨ out.subThr ≠ []) ∧ action = none then .error .assertionError
    else
      match action with
      | none => .ok { obj := out.obj, rel := st.rel, thr := st.thr, fresh := out.fresh }
      | some a =>
        .ok { obj := out.obj,
              rel := if a = .NO_SUBOBJECTS then st.rel
                else applySync st.rel out.subRev (if a = .SYNC then out.delRev else []),
              thr := if a = .NO_SUBOBJECTS then st.thr
                else applySync st.thr out.subThr (if a = .SYNC then out.delThr else []),
              fresh := out.fresh }

theorem getA_applySub_not_touched (sub : List SubField) (iset : List Str)
    (vals attrs : List (Str × Value)) (a : Str)
    (ha : a ∉ (sub.filter (fun sf => decide (sf.name ∈ iset))).map SubField.attname) :
    getA (applySub sub true iset vals attrs) a = getA attrs a := by
  induction sub generalizing attrs with
  | nil => rfl
  | cons f rest ih =>
    by_cases hset : f.name ∈ iset
    · have hf : a ∉ (rest.filter (fun sf => decide (sf.name ∈ iset))).map SubField.attname ∧
          a ≠ f.attname := by
        rw [List.filter_cons_of_pos (by simpa using hset)] at ha
        simp only [List.map_cons, List.mem_cons, not_or] at ha
        exact ⟨ha.2, ha.1⟩
      simp only [applySub, hset, not_true_eq_false, and_false, if_false]
      rw [ih _ hf.1, getA_setA_other _ _ _ _ hf.2]
    · have hf : a ∉ (rest.filter (fun sf => decide (sf.name ∈ iset))).map SubField.attname := by
        rw [List.filter_cons_of_neg (by simpa using hset)] at ha
        exact ha
      simp only [applySub, hset, not_false_eq_true, and_true, if_true]
      exact ih _ hf

theorem getA_populateDefault_not_touched (sub : List SubField)
    (attrs : List (Str × Value)) (a : Str) (ha : a ∉ sub.map SubField.attname) :
    getA (populateDefault sub attrs) a = getA attrs a := by
  induction sub generalizing attrs with
  | nil => rfl
  | cons f rest ih =>
    simp only [List.map_cons, List.mem_cons, not_or] at ha
    simp only [populateDefault]
    rw [ih _ ha.2, getA_setA_other _ _ _ _ ha.1]

/-- The ORM attributes of the parent record that one schema field may assign
under `exclude_unset=True`: a set scalar field assigns its column; a set
`None` nested submodel assigns all nested defaults; a nested submodel
instance assigns the columns of its own explicitly-set fields (whether or
not the submodel field itself is set on the parent); list-shaped fields
touch related tables, not the parent. -/
def touchedOne (pset : List Str) (f : TField) : List Str :=
  match f.data with
  | .scalar attname _ _ => if f.name ∈ pset then [attname] else []
  | .scalarNone => []
  | .subModel sub vOpt =>
    match vOpt with
    | none => if f.name ∈ pset then sub.map SubField.attname else []
    | some inst => (sub.filter (fun sf => decide (sf.name ∈ inst.set))).map SubField.attname
  | .listRel _ _ _ _ _ => []

/-- All parent attributes possibly assigned by `transfer_to_orm` with
`exclude_unset=True`. -/
def touchedAttrs (pset : List Str) : List TField → List Str
  | [] => []
  | f :: rest => touchedOne pset f ++ touchedAttrs pset rest

theorem processField_frame (action : Option TransferAction) (pset : List Str)
    (parentId : Nat) (rel thr : List SubObj) (f : TField) (acc acc2 : TransferOut)
    (hok : processField true action pset parentId rel thr f acc = .ok acc2)
    (a : Str) (ha : a ∉ touchedOne pset f) : getA acc2.obj a = getA acc.obj a := by
  cases hd : f.data with
  | scalar attname d v =>
    simp only [processField, hd] at hok
    simp only [touchedOne, hd] at ha
    by_cases hset : f.name ∈ pset
    · rw [if_pos hset] at ha
      simp only [List.mem_singleton] at ha
      rw [if_neg (by simp [hset])] at hok
      simp only [Except.ok.injEq] at hok
      rw [← hok]
      exact getA_setA_other _ _ _ _ ha
    · rw [if_pos (by simp [hset])] at hok
      simp only [Except.ok.injEq] at hok
      rw [← hok]
  | scalarNone =>
    simp only [processField, hd, Except.ok.injEq] at hok
    rw [← hok]
  | subModel sub vOpt =>
    cases vOpt with
    | none =>
      simp only [processField, hd] at hok
      simp only [touchedOne, hd] at ha
      by_cases hset : f.name ∈ pset
      · rw [if_pos hset] at ha
        rw [if_neg (by simp [hset])] at hok
        simp only [Except.ok.injEq] at hok
        rw [← hok]
        exact getA_populateDefault_not_touched sub acc.obj a ha
      · rw [if_pos (by simp [hset])] at hok
        simp only [Except.ok.injEq] at hok
        rw [← hok]
    | some inst =>
      simp only [processField, hd, Except.ok.injEq] at hok
      simp only [touchedOne, hd] at ha
      rw [← hok]
      exact getA_applySub_not_touched sub inst.set inst.vals acc.obj a ha
  | listRel kind sub matching targetAtt items =>
    simp only [processField, hd] at hok
    by_cases hi : items = []
    · rw [if_pos hi] at hok
      simp only [Except.ok.injEq] at hok
      rw [← hok]
    · rw [if_neg hi] at hok
      cases kind with
      | revM2O =>
        cases hl : syncLoop (revGetSubObj action matching parentId rel) sub true items
            { subobjects := [],
              existingIds := if action = some TransferAction.SYNC then
                  ((rel.filter (fun r => decide (r.parent = parentId))).map SubObj.id)
                else [],
              fresh := acc.fresh } with
        | error e => rw [hl] at hok; simp at hok
        | ok lacc =>
          rw [hl] at hok
          simp only [Except.ok.injEq] at hok
          rw [← hok]
      | m2m =>
        cases hl : syncLoop (m2mGetSubObj action parentId targetAtt thr) sub true items
            { subobjects := [],
              existingIds := if action = some TransferAction.SYNC then
                  ((thr.filter (fun r => decide (r.parent = parentId))).map SubObj.id)
                else [],
              fresh := acc.fresh } with
        | error e => rw [hl] at hok; simp at hok
        | ok lacc =>
          rw [hl] at hok
          simp only [Except.ok.injEq] at hok
          rw [← hok]

theorem processFields_frame (action : Option TransferAction) (pset : List Str)
    (parentId : Nat) (rel thr : List SubObj) (fields : List TField)
    (acc out : TransferOut)
    (hok : processFields true action pset parentId rel thr fields acc = .ok out)
    (a : Str) (ha : a ∉ touchedAttrs pset fields) : getA out.obj a = getA acc.obj a := by
  induction fields generalizing acc with
  | nil =>
    simp only [processFields, Except.ok.injEq] at hok
    rw [← hok]
  | cons f rest ih =>
    simp only [touchedAttrs, List.mem_append, not_or] at ha
    simp only [processFields] at hok
    cases hf : processField true action pset parentId rel thr f acc with
    | error e => rw [hf] at hok; simp at hok
    | ok acc2 =>
      rw [hf] at hok
      rw [ih acc2 hok ha.2, processField_frame action pset parentId rel thr f acc acc2 hf a ha.1]

/-- Claim C3, amended: with `exclude_unset=True`, `transfer_to_orm` leaves
every parent attribute unchanged except those bound under explicitly-set
schema fields — where a nested submodel field whose value is a model
instance is walked regardless of being set on the parent, assigning the
columns of the fields explicitly set on the instance itself (see
`transfer_to_orm_exclude_unset_counterexample` against the claim as
stated). -/
theorem transfer_to_orm_exclude_unset_frame (p : PObj) (action : Option TransferAction)
    (parentId : Nat) (st st' : OrmState)
    (hok : transfer_to_orm p true action parentId st = .ok st') :
    ∀ a, a ∉ touchedAttrs p.set p.fields → getA st'.obj a = getA st.obj a := by
  intro a ha
  cases hp : processFields true action p.set parentId st.rel st.thr p.fields
      { obj := st.obj, subRev := [], subThr := [], delRev := [], delThr := [],
        fresh := st.fresh } with
  | error e =>
    simp only [transfer_to_orm, hp] at hok
    simp at hok
  | ok out =>
    simp only [transfer_to_orm, hp] at hok
    have hobj : st'.obj = out.obj := by
      split at hok
      · simp at hok
      · cases action with
        | none =>
          simp only [Except.ok.injEq] at hok
          rw [← hok]
        | some a0 =>
          simp only [Except.ok.injEq] at hok
          rw [← hok]
    rw [hobj]
    exact processFields_frame action p.set parentId st.rel st.thr p.fields _ out hp a ha

/-- Counterexample to C3 as stated: a nested submodel field `sub` that is
not explicitly set (it does not appear in `dict(exclude_unset=True)`, whose
key set here is empty) still has its instance's set field `x` transferred,
overwriting the column `cx` — because the code recurses into any submodel
instance without an `exclude_unset` check. -/
theorem transfer_to_orm_exclude_unset_counterexample :
    transfer_to_orm
        { set := [],
          fields := [{ name := "sub".data,
                       data := TFieldData.subModel
                         [{ name := "x".data, attname := "cx".data }]
                         (some { set := ["x".data], vals := [("x".data, Value.int 5)] }) }] }
        true none 1
        { obj := [("cx".data, Value.none)], rel := [], thr := [], fresh := 0 } =
      .ok { obj := [("cx".data, Value.int 5)], rel := [], thr := [], fresh := 0 } ∧
    "sub".data ∉ ([] : List Str) ∧ Value.int 5 ≠ Value.none := by
  refine ⟨rfl, by simp, by decide⟩

/-- Witness for the amended C3 at a concrete input: the untouched column
`cy` keeps its value across the transfer. -/
theorem transfer_to_orm_exclude_unset_frame_witness :
    getA
      (OrmState.obj
        { obj := [("cy".data, Value.int 3), ("cx".data, Value.int 5)], rel := [], thr := [],
          fresh := 0 })
      "cy".data =
      getA [("cy".data, Value.int 3), ("cx".data, Value.none)] "cy".data :=
  transfer_to_orm_exclude_unset_frame
    { set := [],
      fields := [{ name := "sub".data,
                   data := TFieldData.subModel
                     [{ name := "x".data, attname := "cx".data }]
                     (some { set := ["x".data], vals := [("x".data, Value.int 5)] }) }] }
    none 1
    { obj := [("cy".data, Value.int 3), ("cx".data, Value.none)], rel := [], thr := [],
      fresh := 0 }
    { obj := [("cy".data, Value.int 3), ("cx".data, Value.int 5)], rel := [], thr := [],
      fresh := 0 }
    rfl "cy".data (by decide)

/-- A pydantic model instance whose fields are all singleton scalars, each
bound via `orm_field` to a column: the schema fields with their values. -/
def flatPObj (schema : List SubField) (pset : List Str) (vals : List (Str × Value)) : PObj :=
  { set := pset,
    fields := schema.map (fun sf =>
      { name := sf.name,
        data := TFieldData.scalar sf.attname sf.default (getA vals sf.name) }) }

theorem processFields_flat (schema : List SubField) (vals : List (Str × Value))
    (action : Option TransferAction) (pset : List Str) (parentId : Nat)
    (rel thr : List SubObj) (acc : TransferOut) :
    processFields false action pset parentId rel thr
      (schema.map (fun sf =>
        { name := sf.name,
          data := TFieldData.scalar sf.attname sf.default (getA vals sf.name) })) acc =
      .ok { acc with obj := applySub schema false pset vals acc.obj } := by
  induction schema generalizing acc with
  | nil => rfl
  | cons f rest ih =>
    simp only [List.map_cons, processFields, processField, Bool.false_eq_true, false_and,
      if_false]
    rw [show (applySub (f :: rest) false pset vals acc.obj) =
      applySub rest false pset vals (setA acc.obj f.attname (getA vals f.name)) from by
        simp [applySub]]
    exact ih { acc with obj := setA acc.obj f.attname (getA vals f.name) }

theorem transfer_to_orm_flat (schema : List SubField) (vals : List (Str × Value))
    (pset : List Str) (parentId : Nat) (st : OrmState) :
    transfer_to_orm (flatPObj schema pset vals) false none parentId st =
      .ok { obj := applySub schema false pset vals st.obj, rel := st.rel, thr := st.thr,
            fresh := st.fresh } := by
  simp only [transfer_to_orm, flatPObj]
  rw [processFields_flat]
  simp

theorem getA_applySub_flat_frame (schema : List SubField) (pset : List Str)
    (vals attrs : List (Str × Value)) (a : Str)
    (ha : a ∉ schema.map SubField.attname) :
    getA (applySub schema false pset vals attrs) a = getA attrs a := by
  induction schema generalizing attrs with
  | nil => rfl
  | cons f rest ih =>
    simp only [List.map_cons, List.mem_cons, not_or] at ha
    simp only [applySub, Bool.false_eq_true, false_and, if_false]
    rw [ih _ ha.2, getA_setA_other _ _ _ _ ha.1]

theorem getA_applySub_flat (schema : List SubField) (pset : List Str)
    (vals attrs : List (Str × Value))
    (hnd : (schema.map SubField.attname).Nodup) :
    ∀ f ∈ schema, getA (applySub schema false pset vals attrs) f.attname = getA vals f.name := by
  induction schema generalizing attrs with
  | nil => simp
  | cons g rest ih =>
    simp only [List.map_cons, List.nodup_cons] at hnd
    intro f hf
    rcases List.mem_cons.mp hf with rfl | hf'
    · simp only [applySub, Bool.false_eq_true, false_and, if_false]
      rw [getA_applySub_flat_frame rest pset vals _ f.attname hnd.1, getA_setA_self]
    · simp only [applySub, Bool.false_eq_true, false_and, if_false]
      exact ih _ hnd.2 f hf'

theorem transfer_from_orm_no_scopes (schema : List SubField) (obj : DjObj)
    (ctx : Option AccessTok) (hsc : ∀ f ∈ schema, f.scopes = []) :
    transfer_from_orm schema obj ctx =
      .ok (schema.map (fun f => (f.name, getA obj.attrs f.attname))) := by
  induction schema with
  | nil => rfl
  | cons f rest ih =>
    have hf : f.scopes = [] := hsc f (by simp)
    have hfv : fieldValue ctx obj f = .ok (getA obj.attrs f.attname) := by
      simp only [fieldValue, hf, List.mapM_nil]
      rw [gateValue_no_scopes]
    simp only [transfer_from_orm, hfv, ih (fun g hg => hsc g (List.mem_cons_of_mem f hg)),
      List.map_cons]

theorem getA_map_pairs (schema : List SubField) (h : SubField → Value)
    (hnd : (schema.map SubField.name).Nodup) :
    ∀ f ∈ schema, getA (schema.map (fun g => (g.name, h g))) f.name = h f := by
  induction schema with
  | nil => simp
  | cons g rest ih =>
    simp only [List.map_cons, List.nodup_cons] at hnd
    intro f hf
    rcases List.mem_cons.mp hf with rfl | hf'
    · simp [getA]
    · have hne : g.name ≠ f.name := by
        intro hc
        exact hnd.1 (hc ▸ List.mem_map_of_mem SubField.name hf')
      simp only [List.map_cons, getA, hne, if_false]
      exact ih hnd.2 f hf'

/-- Claim C2, amended: for a schema of singleton scalar fields each bound
via `orm_field` to a distinct concrete column (no scopes, no orm_method, no
relations), `transfer_to_orm` followed by `transfer_from_orm` reproduces
every field value (see `transfer_round_trip_counterexample` for why distinct
columns are required). -/
theorem transfer_round_trip (schema : List SubField) (vals : List (Str × Value))
    (pset : List Str) (parentId : Nat) (st : OrmState)
    (ca : Option (Option Str → Bool)) (ctx : Option AccessTok)
    (hscopes : ∀ f ∈ schema, f.scopes = [])
    (hatt : (schema.map SubField.attname).Nodup)
    (hname : (schema.map SubField.name).Nodup) :
    ∃ st', transfer_to_orm (flatPObj schema pset vals) false none parentId st = .ok st' ∧
      ∃ out, transfer_from_orm schema { attrs := st'.obj, checkAccess := ca } ctx = .ok out ∧
        ∀ f ∈ schema, getA out f.name = getA vals f.name := by
  refine ⟨_, transfer_to_orm_flat schema vals pset parentId st, _,
    transfer_from_orm_no_scopes schema _ ctx hscopes, ?_⟩
  intro f hf
  rw [getA_map_pairs schema _ hname f hf]
  exact getA_applySub_flat schema pset vals st.obj hatt f hf

/-- Counterexample to C2 as stated: two scalar fields bound to the same
column `c` do not round-trip — the second write wins, and reading back gives
both fields the last value. -/
theorem transfer_round_trip_counterexample :
    transfer_to_orm
        (flatPObj [{ name := "x".data, attname := "c".data },
                   { name := "y".data, attname := "c".data }]
          [] [("x".data, Value.int 1), ("y".data, Value.int 2)])
        false none 1 { obj := [], rel := [], thr := [], fresh := 0 } =
      .ok { obj := [("c".data, Value.int 2)], rel := [], thr := [], fresh := 0 } ∧
    transfer_from_orm [{ name := "x".data, attname := "c".data },
        { name := "y".data, attname := "c".data }]
        { attrs := [("c".data, Value.int 2)] } none =
      .ok [("x".data, Value.int 2), ("y".data, Value.int 2)] ∧
    getA [("x".data, Value.int 2), ("y".data, Value.int 2)] "x".data ≠
      getA [("x".data, Value.int 1), ("y".data, Value.int 2)] "x".data := by
  refine ⟨rfl, rfl, by decide⟩

/-- Witness for the amended C2 at a concrete schema of two distinct
columns. -/
theorem transfer_round_trip_witness :
    ∃ st', transfer_to_orm
        (flatPObj [{ name := "x".data, attname := "cx".data },
                   { name := "y".data, attname := "cy".data }]
          [] [("x".data, Value.int 1), ("y".data, Value.int 2)])
        false none 1 { obj := [], rel := [], thr := [], fresh := 0 } = .ok st' ∧
      ∃ out, transfer_from_orm [{ name := "x".data, attname := "cx".data },
          { name := "y".data, attname := "cy".data }]
          { attrs := st'.obj, checkAccess := none } none = .ok out ∧
        ∀ f ∈ [{ name := "x".data, attname := "cx".data : SubField },
               { name := "y".data, attname := "cy".data : SubField }],
          getA out f.name =
            getA [("x".data, Value.int 1), ("y".data, Value.int 2)] f.name :=
  transfer_round_trip
    [{ name := "x".data, attname := "cx".data }, { name := "y".data, attname := "cy".data }]
    [("x".data, Value.int 1), ("y".data, Value.int 2)] [] 1
    { obj := [], rel := [], thr := [], fresh := 0 } none none
    (by intro f hf; rcases List.mem_cons.mp hf with rfl | hf' <;> simp_all)
    (by decide) (by decide)

theorem syncStep_id (sub : List SubField) (excl : Bool) (v : SubInput) (so : SubObj) :
    (syncStep sub excl v so).id = so.id := rfl

theorem mem_upsertSub_self (table : List SubObj) (o : SubObj) : o ∈ upsertSub table o := by
  unfold upsertSub
  split
  · rename_i hany
    simp only [List.any_eq_true, decide_eq_true_eq] at hany
    obtain ⟨r, hr, hid⟩ := hany
    rw [List.mem_map]
    exact ⟨r, hr, by simp [hid]⟩
  · simp

theorem mem_upsertSub_of_ne (table : List SubObj) (o x : SubObj) (hx : x ∈ table)
    (hne : x.id ≠ o.id) : x ∈ upsertSub table o := by
  unfold upsertSub
  split
  · rw [List.mem_map]
    exact ⟨x, hx, by simp [hne]⟩
  · exact List.mem_append_left _ hx

theorem mem_foldl_upsert_preserve (objs : List SubObj) (table : List SubObj) (x : SubObj)
    (hx : x ∈ table) (hne : ∀ o ∈ objs, x.id ≠ o.id) :
    x ∈ objs.foldl upsertSub table := by
  induction objs generalizing table with
  | nil => exact hx
  | cons o rest ih =>
    simp only [List.foldl_cons]
    exact ih (upsertSub table o)
      (mem_upsertSub_of_ne table o x hx (hne o (by simp)))
      (fun o' ho' => hne o' (List.mem_cons_of_mem o ho'))

theorem mem_foldl_upsert_of_mem (objs : List SubObj) (table : List SubObj) (o : SubObj)
    (ho : o ∈ objs) (hnd : (objs.map SubObj.id).Nodup) :
    o ∈ objs.foldl upsertSub table := by
  induction objs generalizing table with
  | nil => simp at ho
  | cons g rest ih =>
    simp only [List.map_cons, List.nodup_cons] at hnd
    rcases List.mem_cons.mp ho with rfl | ho'
    · simp only [List.foldl_cons]
      exact mem_foldl_upsert_preserve rest (upsertSub table o) o
        (mem_upsertSub_self table o)
        (fun o' ho' hc => hnd.1 (hc ▸ List.mem_map_of_mem SubObj.id ho'))
    · simp only [List.foldl_cons]
      exact ih (upsertSub table g) ho' hnd.2

theorem applySync_props (table : List SubObj) (subs : List SubObj) (dels : List Nat)
    (hnd : (subs.map SubObj.id).Nodup) :
    (∀ so ∈ subs, so.id ∉ dels → so ∈ applySync table subs dels) ∧
    (∀ y ∈ applySync table subs dels, y.id ∉ dels) := by
  constructor
  · intro so hso hdel
    unfold applySync
    rw [List.mem_filter]
    exact ⟨mem_foldl_upsert_of_mem subs table so hso hnd, by simpa using hdel⟩
  · intro y hy
    unfold applySync at hy
    rw [List.mem_filter] at hy
    simpa using hy.2

/-- The record a reverse many-to-one input item is reconciled with under
SYNC: by id (when the item's id is truthy) together with the parent link, or
by the field's `sync_matching` columns. -/
def revMatches (matching : Option (List (Str × Str))) (parentId : Nat)
    (v : SubInput) (r : SubObj) : Prop :=
  r.parent = parentId ∧
    (match pyId v.id with
     | some i => r.id = i
     | none => ∃ keys, matching = some keys ∧
         ∀ kv ∈ keys, getA r.attrs kv.2 = getA v.vals kv.1)

/-- The through row an m2m input item is reconciled with under SYNC: by the
source (parent) link and the target foreign-key column. -/
def m2mMatches (targetAtt : Str) (parentId : Nat) (v : SubInput) (r : SubObj) : Prop :=
  r.parent = parentId ∧ ∃ tid, pyId v.id = some tid ∧
    getA r.attrs targetAtt = Value.int tid

/-- The attributes a created m2m through row starts with: the target foreign
key set to the input item's id. -/
def m2mInitAttrs (targetAtt : Str) (v : SubInput) : List (Str × Value) :=
  match pyId v.id with
  | some tid => [(targetAtt, Value.int tid)]
  | none => []

theorem revGetSubObj_contract (matching : Option (List (Str × Str))) (parentId : Nat)
    (rel : List SubObj) (baseFresh : Nat) (v : SubInput)
    (hexpl : ∀ i, pyId v.id = some i → i < baseFresh) :
    ∀ fresh so fresh', baseFresh ≤ fresh → (∀ r ∈ rel, r.id < fresh) →
    revGetSubObj (some .SYNC) matching parentId rel fresh v = .ok (so, fresh') →
    ((∃ r ∈ rel, revMatches matching parentId v r ∧
        (∀ r' ∈ rel, revMatches matching parentId v r' → r' = r) ∧
        so = r ∧ fresh' = fresh) ∨
     ((∀ r ∈ rel, ¬ revMatches matching parentId v r) ∧ so.parent = parentId ∧
       so.attrs = [] ∧ fresh ≤ fresh' ∧ so.id < fresh' ∧
       (∀ r ∈ rel, r.parent = parentId → r.id ≠ so.id) ∧
       (so.id < baseFresh ∨ fresh ≤ so.id) ∧
       (so.id < baseFresh → pyId v.id = some so.id))) := by
  intro fresh so fresh' hbf hlt hok
  unfold revGetSubObj at hok
  split at hok
  · rename_i hcond
    rcases hcond with ⟨_, hpy, hmt⟩ | hcr
    · split at hok
      · rename_i i heq
        rw [hpy] at heq
        exact Option.noConfusion heq
      · simp only [Except.ok.injEq, Prod.mk.injEq] at hok
        obtain ⟨rfl, rfl⟩ := hok
        refine Or.inr ⟨?_, rfl, rfl, Nat.le_succ _, Nat.lt_succ_self _, ?_,
          Or.inr (le_refl _), ?_⟩
        · intro r hr hm
          obtain ⟨_, hid⟩ := hm
          rw [hpy] at hid
          obtain ⟨keys, hk, _⟩ := hid
          rw [hmt] at hk
          exact Option.noConfusion hk
        · intro r hr _ hc
          have h1 : r.id < fresh := hlt r hr
          have h2 : r.id = fresh := hc
          omega
        · intro hc
          have h2 : fresh < baseFresh := hc
          omega
    · simp at hcr
  · split at hok
    · split at hok
      · rename_i i hpy
        split at hok
        · rename_i hfil
          simp only [Except.ok.injEq, Prod.mk.injEq] at hok
          obtain ⟨rfl, rfl⟩ := hok
          have hnom : ∀ r ∈ rel, ¬ revMatches matching parentId v r := by
            intro r hr hm
            obtain ⟨hp, hid⟩ := hm
            rw [hpy] at hid
            have := List.filter_eq_nil_iff.mp hfil r hr
            simp only [decide_eq_true_eq] at this
            exact this ⟨hid, hp⟩
          refine Or.inr ⟨hnom, rfl, rfl, le_refl _,
            lt_of_lt_of_le (hexpl i hpy) hbf, ?_, Or.inl (hexpl i hpy), fun _ => hpy⟩
          intro r hr hp hc
          have := List.filter_eq_nil_iff.mp hfil r hr
          simp only [decide_eq_true_eq] at this
          exact this ⟨hc, hp⟩
        · rename_i r hfil
          simp only [Except.ok.injEq, Prod.mk.injEq] at hok
          have hrmem : r ∈ rel ∧ (r.id = i ∧ r.parent = parentId) := by
            have hin : r ∈ rel.filter (fun r => decide (r.id = i ∧ r.parent = parentId)) := by
              rw [hfil]
              simp
            rw [List.mem_filter] at hin
            simpa using hin
          refine Or.inl ⟨r, hrmem.1, ⟨hrmem.2.2, by rw [hpy]; exact hrmem.2.1⟩, ?_,
            hok.1.symm, hok.2.symm⟩
          intro r' hr' hm'
          obtain ⟨hp', hid'⟩ := hm'
          rw [hpy] at hid'
          have hin' : r' ∈ rel.filter (fun r => decide (r.id = i ∧ r.parent = parentId)) := by
            rw [List.mem_filter]
            simp [hr', hid', hp']
          rw [hfil] at hin'
          simpa using hin'
        · simp at hok
      · rename_i hpy
        split at hok
        · rename_i keys hneg2
          split at hok
          · rename_i hfil
            simp only [Except.ok.injEq, Prod.mk.injEq] at hok
            obtain ⟨rfl, rfl⟩ := hok
            have hnom : ∀ r ∈ rel, ¬ revMatches (some keys) parentId v r := by
              intro r hr hm
              obtain ⟨hp, hid⟩ := hm
              rw [hpy] at hid
              obtain ⟨keys', hk', hkv⟩ := hid
              injection hk' with hk'
              subst hk'
              have := List.filter_eq_nil_iff.mp hfil r hr
              simp only [decide_eq_true_eq] at this
              exact this ⟨hp, hkv⟩
            refine Or.inr ⟨hnom, rfl, rfl, Nat.le_succ _, Nat.lt_succ_self _, ?_,
              Or.inr (le_refl _), ?_⟩
            · intro r hr _ hc
              have h1 : r.id < fresh := hlt r hr
              have h2 : r.id = fresh := hc
              omega
            · intro hc
              have h2 : fresh < baseFresh := hc
              omega
          · rename_i r hfil
            simp only [Except.ok.injEq, Prod.mk.injEq] at hok
            have hrmem : r ∈ rel ∧ (r.parent = parentId ∧
                ∀ kv ∈ keys, getA r.attrs kv.2 = getA v.vals kv.1) := by
              have hin : r ∈ rel.filter (fun r => decide (r.parent = parentId ∧
                  ∀ kv ∈ keys, getA r.attrs kv.2 = getA v.vals kv.1)) := by
                rw [hfil]
                simp
              rw [List.mem_filter] at hin
              simpa using hin
            refine Or.inl ⟨r, hrmem.1,
              ⟨hrmem.2.1, by rw [hpy]; exact ⟨keys, rfl, hrmem.2.2⟩⟩, ?_,
              hok.1.symm, hok.2.symm⟩
            intro r' hr' hm'
            obtain ⟨hp', hid'⟩ := hm'
            rw [hpy] at hid'
            obtain ⟨keys', hk', hkv'⟩ := hid'
            injection hk' with hk'
            subst hk'
            have hin' : r' ∈ rel.filter (fun r => decide (r.parent = parentId ∧
                ∀ kv ∈ keys, getA r.attrs kv.2 = getA v.vals kv.1)) := by
              rw [List.mem_filter]
              simp only [decide_eq_true_eq]
              exact ⟨hr', hp', hkv'⟩
            rw [hfil] at hin'
            simpa using hin'
          · simp at hok
        · simp at hok
    · rename_i hne
      exact absurd rfl hne

theorem m2mGetSubObj_contract (parentId : Nat) (targetAtt : Str) (thr : List SubObj)
    (baseFresh : Nat) (v : SubInput) :
    ∀ fresh so fresh', baseFresh ≤ fresh → (∀ r ∈ thr, r.id < fresh) →
    m2mGetSubObj (some .SYNC) parentId targetAtt thr fresh v = .ok (so, fresh') →
    ((∃ r ∈ thr, m2mMatches targetAtt parentId v r ∧
        (∀ r' ∈ thr, m2mMatches targetAtt parentId v r' → r' = r) ∧
        so = r ∧ fresh' = fresh) ∨
     ((∀ r ∈ thr, ¬ m2mMatches targetAtt parentId v r) ∧ so.parent = parentId ∧
       so.attrs = m2mInitAttrs targetAtt v ∧ fresh ≤ fresh' ∧ so.id < fresh' ∧
       (∀ r ∈ thr, r.parent = parentId → r.id ≠ so.id) ∧
       (so.id < baseFresh ∨ fresh ≤ so.id) ∧
       (so.id < baseFresh → pyId v.id = some so.id))) := by
  intro fresh so fresh' hbf hlt hok
  unfold m2mGetSubObj at hok
  split at hok
  · simp at hok
  · rename_i tid hpy
    rw [if_neg (by simp)] at hok
    rw [if_pos rfl] at hok
    split at hok
    · rename_i hfil
      simp only [Except.ok.injEq, Prod.mk.injEq] at hok
      obtain ⟨rfl, rfl⟩ := hok
      have hnom : ∀ r ∈ thr, ¬ m2mMatches targetAtt parentId v r := by
        intro r hr hm
        obtain ⟨hp, tid', hpy', hv⟩ := hm
        rw [hpy] at hpy'
        injection hpy' with hpy'
        subst hpy'
        have := List.filter_eq_nil_iff.mp hfil r hr
        simp only [decide_eq_true_eq] at this
        exact this ⟨hp, hv⟩
      refine Or.inr ⟨hnom, rfl, ?_, Nat.le_succ _, Nat.lt_succ_self _, ?_,
        Or.inr (le_refl _), ?_⟩
      · unfold m2mInitAttrs
        rw [hpy]
      · intro r hr _ hc
        have h1 : r.id < fresh := hlt r hr
        have h2 : r.id = fresh := hc
        omega
      · intro hc
        have h2 : fresh < baseFresh := hc
        omega
    · rename_i r hfil
      simp only [Except.ok.injEq, Prod.mk.injEq] at hok
      have hrmem : r ∈ thr ∧ (r.parent = parentId ∧ getA r.attrs targetAtt = Value.int tid) := by
        have hin : r ∈ thr.filter (fun r => decide (r.parent = parentId ∧
            getA r.attrs targetAtt = Value.int tid)) := by
          rw [hfil]
          simp
        rw [List.mem_filter] at hin
        simpa using hin
      refine Or.inl ⟨r, hrmem.1, ⟨hrmem.2.1, tid, hpy, hrmem.2.2⟩, ?_,
        hok.1.symm, hok.2.symm⟩
      intro r' hr' hm'
      obtain ⟨hp', tid', hpy', hv'⟩ := hm'
      rw [hpy] at hpy'
      injection hpy' with hpy'
      subst hpy'
      have hin' : r' ∈ thr.filter (fun r => decide (r.parent = parentId ∧
          getA r.attrs targetAtt = Value.int tid)) := by
        rw [List.mem_filter]
        simp only [decide_eq_true_eq]
        exact ⟨hr', hp', hv'⟩
      rw [hfil] at hin'
      simpa using hin'
    · simp at hok

theorem syncLoop_master
    (getObj : Nat → SubInput → Except TransferErr (SubObj × Nat))
    (matchesP : SubInput → SubObj → Prop)
    (initA : SubInput → List (Str × Value))
    (rel : List SubObj) (parentId baseFresh : Nat)
    (sub : List SubField) (excl : Bool)
    (hmp : ∀ v r, matchesP v r → r.parent = parentId)
    (hrelnd : (rel.map SubObj.id).Nodup) :
    ∀ (todo : List SubInput) (acc acc' : SyncAcc),
    syncLoop getObj sub excl todo acc = .ok acc' →
    (∀ v ∈ todo, ∀ fresh so fresh', baseFresh ≤ fresh → (∀ r ∈ rel, r.id < fresh) →
      getObj fresh v = .ok (so, fresh') →
      ((∃ r ∈ rel, matchesP v r ∧ (∀ r' ∈ rel, matchesP v r' → r' = r) ∧
          so = r ∧ fresh' = fresh) ∨
       ((∀ r ∈ rel, ¬ matchesP v r) ∧ so.parent = parentId ∧ so.attrs = initA v ∧
         fresh ≤ fresh' ∧ so.id < fresh' ∧
         (∀ r ∈ rel, r.parent = parentId → r.id ≠ so.id) ∧
         (so.id < baseFresh ∨ fresh ≤ so.id) ∧
         (so.id < baseFresh → pyId v.id = some so.id)))) →
    todo.Pairwise (fun v v' => ∀ r ∈ rel, ¬(matchesP v r ∧ matchesP v' r)) →
    (todo.filterMap (fun v => pyId v.id)).Nodup →
    (acc.subobjects.map SubObj.id).Nodup →
    (∀ so ∈ acc.subobjects, so.id < acc.fresh) →
    baseFresh ≤ acc.fresh →
    (∀ r ∈ rel, r.id < acc.fresh) →
    (∀ so ∈ acc.subobjects, ∀ v ∈ todo, ∀ r ∈ rel, matchesP v r → so.id ≠ r.id) →
    (∀ so ∈ acc.subobjects,
      (∃ r ∈ rel, r.parent = parentId ∧ r.id = so.id) ∨
      (∀ v ∈ todo, ∀ i, pyId v.id = some i → so.id ≠ i) ∨
      baseFresh ≤ so.id) →
    (∀ x ∈ acc.existingIds, ∃ r ∈ rel, r.parent = parentId ∧ r.id = x) →
    ((∀ v ∈ todo, ∀ r ∈ rel, matchesP v r →
        ({ id := r.id, parent := r.parent,
           attrs := applySub sub excl v.set v.vals r.attrs } : SubObj) ∈ acc'.subobjects) ∧
     (∀ v ∈ todo, (∀ r ∈ rel, ¬ matchesP v r) →
        ∃ nid, ({ id := nid, parent := parentId,
                  attrs := applySub sub excl v.set v.vals (initA v) } : SubObj) ∈
            acc'.subobjects ∧
          (∀ r ∈ rel, r.parent = parentId → r.id ≠ nid)) ∧
     (∀ x ∈ acc.existingIds,
        (∀ v ∈ todo, ∀ r ∈ rel, matchesP v r → r.id ≠ x) → x ∈ acc'.existingIds) ∧
     (∀ x ∈ acc'.existingIds, x ∈ acc.existingIds) ∧
     (∀ v ∈ todo, ∀ r ∈ rel, matchesP v r → r.id ∉ acc'.existingIds) ∧
     (acc'.subobjects.map SubObj.id).Nodup ∧
     (∀ so ∈ acc.subobjects, so ∈ acc'.subobjects)) := by
  intro todo
  induction todo with
  | nil =>
    intro acc acc' hok _ _ _ hndsub _ _ _ _ _ _
    simp only [syncLoop, Except.ok.injEq] at hok
    subst hok
    exact ⟨fun v hv => absurd hv (by simp), fun v hv => absurd hv (by simp),
      fun x hx _ => hx, fun x hx => hx, fun v hv => absurd hv (by simp), hndsub,
      fun so h => h⟩
  | cons v rest ih =>
    intro acc acc' hok hget hpair hids hndsub hsublt hbase hrellt hA5 hA6b hexist
    simp only [syncLoop] at hok
    split at hok
    · simp at hok
    · rename_i so fresh' hgo
      have hcon := hget v (by simp) acc.fresh so fresh' hbase hrellt hgo
      have hpair_head : ∀ v' ∈ rest, ∀ r0 ∈ rel, ¬(matchesP v r0 ∧ matchesP v' r0) :=
        (List.pairwise_cons.mp hpair).1
      have hpair_rest := (List.pairwise_cons.mp hpair).2
      have hids_rest : (rest.filterMap (fun v => pyId v.id)).Nodup := by
        rw [List.filterMap_cons] at hids
        cases hp : pyId v.id with
        | none => rw [hp] at hids; exact hids
        | some i => rw [hp] at hids; exact (List.nodup_cons.mp hids).2
      have hget_rest : ∀ v' ∈ rest, ∀ fresh so fresh', baseFresh ≤ fresh →
          (∀ r ∈ rel, r.id < fresh) → getObj fresh v' = .ok (so, fresh') → _ :=
        fun v' hv' => hget v' (List.mem_cons_of_mem v hv')
      rcases hcon with ⟨r, hrmem, hmv, huniq, rfl, rfl⟩ |
        ⟨hnom, hpar, hattr, hdf, hidlt, hrne, hsmallor, hsmallpy⟩
      · -- matched case: so = so, fresh' = acc.fresh
        have hstep_id : (syncStep sub excl v so).id = so.id := rfl
        have hnotin : so.id ∉ acc.subobjects.map SubObj.id := by
          intro hc
          obtain ⟨so0, hso0, hid0⟩ := List.mem_map.mp hc
          exact hA5 so0 hso0 v (by simp) so hrmem hmv hid0
        have hndsub' : ((acc.subobjects ++ [syncStep sub excl v so]).map SubObj.id).Nodup := by
          rw [List.map_append]
          rw [List.nodup_append]
          refine ⟨hndsub, by simp, ?_⟩
          intro a ha
          simp only [List.map_cons, List.map_nil, List.mem_singleton, hstep_id]
          intro hc
          subst hc
          exact hnotin ha
        have hih := ih
          { subobjects := acc.subobjects ++ [syncStep sub excl v so],
            existingIds := acc.existingIds.filter
              (fun i => decide (i ≠ (syncStep sub excl v so).id)),
            fresh := acc.fresh } acc' hok hget_rest hpair_rest hids_rest hndsub'
          (by
            intro so0 hso0
            rcases List.mem_append.mp hso0 with h | h
            · exact hsublt so0 h
            · rw [List.mem_singleton.mp h, hstep_id]
              exact hrellt so hrmem)
          hbase hrellt
          (by
            intro so0 hso0 v' hv' r0 hr0 hm0
            rcases List.mem_append.mp hso0 with h | h
            · exact hA5 so0 h v' (List.mem_cons_of_mem v hv') r0 hr0 hm0
            · rw [List.mem_singleton.mp h, hstep_id]
              intro hc
              have hr0r : r0 = so := List.inj_on_of_nodup_map hrelnd hr0 hrmem hc.symm
              subst hr0r
              exact hpair_head v' hv' r0 hr0 ⟨hmv, hm0⟩)
          (by
            intro so0 hso0
            rcases List.mem_append.mp hso0 with h | h
            · rcases hA6b so0 h with ha | hb | hc
              · exact Or.inl ha
              · exact Or.inr (Or.inl (fun v' hv' => hb v' (List.mem_cons_of_mem v hv')))
              · exact Or.inr (Or.inr hc)
            · rw [List.mem_singleton.mp h]
              exact Or.inl ⟨so, hrmem, hmp v so hmv, hstep_id.symm⟩)
          (by
            intro x hx
            exact hexist x (List.mem_filter.mp hx).1)
        obtain ⟨K1, K2, K3, K4, K5, K6, K7⟩ := hih
        refine ⟨?_, ?_, ?_, ?_, ?_, K6, ?_⟩
        · intro v' hv' r0 hr0 hm0
          rcases List.mem_cons.mp hv' with rfl | hv''
          · have hr0r : r0 = so := huniq r0 hr0 hm0
            subst hr0r
            exact K7 (syncStep sub excl v' r0) (List.mem_append_right _ (by simp))
          · exact K1 v' hv'' r0 hr0 hm0
        · intro v' hv' hno
          rcases List.mem_cons.mp hv' with rfl | hv''
          · exact absurd hmv (hno so hrmem)
          · exact K2 v' hv'' hno
        · intro x hx hno
          refine K3 x ?_ (fun v' hv' => hno v' (List.mem_cons_of_mem v hv'))
          rw [List.mem_filter]
          refine ⟨hx, ?_⟩
          rw [hstep_id]
          have hne := hno v (by simp) so hrmem hmv
          simp only [decide_eq_true_eq]
          omega
        · intro x hx
          exact (List.mem_filter.mp (K4 x hx)).1
        · intro v' hv' r0 hr0 hm0 hc
          rcases List.mem_cons.mp hv' with rfl | hv''
          · have hr0r : r0 = so := huniq r0 hr0 hm0
            subst hr0r
            have := List.mem_filter.mp (K4 r0.id hc)
            rw [hstep_id] at this
            simpa using this.2
          · exact K5 v' hv'' r0 hr0 hm0 hc
        · intro so0 hso0
          exact K7 so0 (List.mem_append_left _ hso0)
      · -- created case
        have hstep_id : (syncStep sub excl v so).id = so.id := rfl
        have hstep_eq : syncStep sub excl v so =
            ({ id := so.id, parent := parentId,
                attrs := applySub sub excl v.set v.vals (initA v) } : SubObj) := by
          show ({ id := so.id, parent := so.parent,
                  attrs := applySub sub excl v.set v.vals so.attrs } : SubObj) = _
          rw [hpar, hattr]
        have hnotin : so.id ∉ acc.subobjects.map SubObj.id := by
          intro hc
          obtain ⟨so0, hso0, hid0⟩ := List.mem_map.mp hc
          rcases hsmallor with hsmall | hcur
          · have hpyv := hsmallpy hsmall
            rcases hA6b so0 hso0 with ⟨r0, hr0, hp0, hid0'⟩ | hb | hcc
            · exact hrne r0 hr0 hp0 (by rw [hid0', hid0])
            · exact hb v (by simp) so.id hpyv hid0
            · have := hsublt so0 hso0
              omega
          · have := hsublt so0 hso0
            omega
        have hndsub' : ((acc.subobjects ++ [syncStep sub excl v so]).map SubObj.id).Nodup := by
          rw [List.map_append, List.nodup_append]
          refine ⟨hndsub, by simp, ?_⟩
          intro a ha
          simp only [List.map_cons, List.map_nil, List.mem_singleton, hstep_id]
          intro hc
          subst hc
          exact hnotin ha
        have hih := ih
          { subobjects := acc.subobjects ++ [syncStep sub excl v so],
            existingIds := acc.existingIds.filter
              (fun i => decide (i ≠ (syncStep sub excl v so).id)),
            fresh := fresh' } acc' hok hget_rest hpair_rest hids_rest hndsub'
          (by
            intro so0 hso0
            rcases List.mem_append.mp hso0 with h | h
            · exact lt_of_lt_of_le (hsublt so0 h) hdf
            · rw [List.mem_singleton.mp h, hstep_id]
              exact hidlt)
          (le_trans hbase hdf)
          (fun r0 hr0 => lt_of_lt_of_le (hrellt r0 hr0) hdf)
          (by
            intro so0 hso0 v' hv' r0 hr0 hm0
            rcases List.mem_append.mp hso0 with h | h
            · exact hA5 so0 h v' (List.mem_cons_of_mem v hv') r0 hr0 hm0
            · rw [List.mem_singleton.mp h, hstep_id]
              intro hc
              exact hrne r0 hr0 (hmp v' r0 hm0) hc.symm)
          (by
            intro so0 hso0
            rcases List.mem_append.mp hso0 with h | h
            · rcases hA6b so0 h with ha | hb | hc
              · exact Or.inl ha
              · exact Or.inr (Or.inl (fun v' hv' => hb v' (List.mem_cons_of_mem v hv')))
              · exact Or.inr (Or.inr hc)
            · rw [List.mem_singleton.mp h, hstep_id]
              rcases hsmallor with hsmall | hcur
              · refine Or.inr (Or.inl ?_)
                intro v' hv' i' hpy' hc
                have hpyv := hsmallpy hsmall
                rw [List.filterMap_cons, hpyv] at hids
                have hnotin' := (List.nodup_cons.mp hids).1
                subst hc
                exact hnotin' (List.mem_filterMap.mpr ⟨v', hv', hpy'⟩)
              · exact Or.inr (Or.inr (le_trans hbase hcur)))
          (by
            intro x hx
            exact hexist x (List.mem_filter.mp hx).1)
        obtain ⟨K1, K2, K3, K4, K5, K6, K7⟩ := hih
        refine ⟨?_, ?_, ?_, ?_, ?_, K6, ?_⟩
        · intro v' hv' r0 hr0 hm0
          rcases List.mem_cons.mp hv' with rfl | hv''
          · exact absurd hm0 (hnom r0 hr0)
          · exact K1 v' hv'' r0 hr0 hm0
        · intro v' hv' hno
          rcases List.mem_cons.mp hv' with rfl | hv''
          · refine ⟨so.id, ?_, hrne⟩
            have hmem : syncStep sub excl v' so ∈
                (acc.subobjects ++ [syncStep sub excl v' so]) := List.mem_append_right _ (by simp)
            have := K7 _ hmem
            rw [hstep_eq] at this
            exact this
          · exact K2 v' hv'' hno
        · intro x hx hno
          refine K3 x ?_ (fun v' hv' => hno v' (List.mem_cons_of_mem v hv'))
          rw [List.mem_filter]
          refine ⟨hx, ?_⟩
          rw [hstep_id]
          obtain ⟨r0, hr0, hp0, hid0⟩ := hexist x hx
          have := hrne r0 hr0 hp0
          simp only [decide_eq_true_eq]
          omega
        · intro x hx
          exact (List.mem_filter.mp (K4 x hx)).1
        · intro v' hv' r0 hr0 hm0 hc
          rcases List.mem_cons.mp hv' with rfl | hv''
          · exact absurd hm0 (hnom r0 hr0)
          · exact K5 v' hv'' r0 hr0 hm0 hc
        · intro so0 hso0
          exact K7 so0 (List.mem_append_left _ hso0)

theorem sync_table_spec
    (getObj : Nat → SubInput → Except TransferErr (SubObj × Nat))
    (matchesP : SubInput → SubObj → Prop)
    (initA : SubInput → List (Str × Value))
    (table : List SubObj) (parentId baseFresh : Nat)
    (sub : List SubField) (excl : Bool) (items : List SubInput) (lacc : SyncAcc)
    (hmp : ∀ v r, matchesP v r → r.parent = parentId)
    (hnd : (table.map SubObj.id).Nodup)
    (hlt : ∀ r ∈ table, r.id < baseFresh)
    (hl : syncLoop getObj sub excl items
      { subobjects := [],
        existingIds := (table.filter (fun r => decide (r.parent = parentId))).map SubObj.id,
        fresh := baseFresh } = .ok lacc)
    (hget : ∀ v ∈ items, ∀ fresh so fresh', baseFresh ≤ fresh →
      (∀ r ∈ table, r.id < fresh) → getObj fresh v = .ok (so, fresh') →
      ((∃ r ∈ table, matchesP v r ∧ (∀ r' ∈ table, matchesP v r' → r' = r) ∧
          so = r ∧ fresh' = fresh) ∨
       ((∀ r ∈ table, ¬ matchesP v r) ∧ so.parent = parentId ∧ so.attrs = initA v ∧
         fresh ≤ fresh' ∧ so.id < fresh' ∧
         (∀ r ∈ table, r.parent = parentId → r.id ≠ so.id) ∧
         (so.id < baseFresh ∨ fresh ≤ so.id) ∧
         (so.id < baseFresh → pyId v.id = some so.id))))
    (hpair : items.Pairwise (fun v v' => ∀ r ∈ table, ¬(matchesP v r ∧ matchesP v' r)))
    (hids : (items.filterMap (fun v => pyId v.id)).Nodup) :
    ((∀ v ∈ items, ∀ r ∈ table, matchesP v r →
        ({ id := r.id, parent := r.parent,
           attrs := applySub sub excl v.set v.vals r.attrs } : SubObj) ∈
          applySync table lacc.subobjects lacc.existingIds) ∧
     (∀ v ∈ items, (∀ r ∈ table, ¬ matchesP v r) →
        ∃ nid, ({ id := nid, parent := parentId,
                  attrs := applySub sub excl v.set v.vals (initA v) } : SubObj) ∈
          applySync table lacc.subobjects lacc.existingIds) ∧
     (∀ r ∈ table, r.parent = parentId → (∀ v ∈ items, ¬ matchesP v r) →
        ∀ r' ∈ applySync table lacc.subobjects lacc.existingIds, r'.id ≠ r.id)) := by
  have hexist0 : ∀ x ∈ (table.filter (fun r => decide (r.parent = parentId))).map SubObj.id,
      ∃ r ∈ table, r.parent = parentId ∧ r.id = x := by
    intro x hx
    obtain ⟨r, hr, hid⟩ := List.mem_map.mp hx
    rw [List.mem_filter] at hr
    exact ⟨r, hr.1, by simpa using hr.2, hid⟩
  obtain ⟨K1, K2, K3, K4, K5, K6, K7⟩ :=
    syncLoop_master getObj matchesP initA table parentId baseFresh sub excl hmp hnd
      items _ lacc hl hget hpair hids (by simp) (by simp) (le_refl _) hlt
      (by simp) (by simp) hexist0
  have props := applySync_props table lacc.subobjects lacc.existingIds K6
  refine ⟨?_, ?_, ?_⟩
  · intro v hv r hr hm
    exact props.1 _ (K1 v hv r hr hm) (K5 v hv r hr hm)
  · intro v hv hno
    obtain ⟨nid, hmem, hne⟩ := K2 v hv hno
    refine ⟨nid, props.1 _ hmem ?_⟩
    intro hc
    obtain ⟨r0, hr0, hp0, hid0⟩ := hexist0 nid (K4 nid hc)
    exact hne r0 hr0 hp0 hid0
  · intro r hr hp hno r' hr'
    have hxin : r.id ∈ (table.filter (fun r => decide (r.parent = parentId))).map SubObj.id :=
      List.mem_map.mpr ⟨r, List.mem_filter.mpr ⟨hr, by simpa using hp⟩, rfl⟩
    have hsurvive : r.id ∈ lacc.existingIds := by
      refine K3 r.id hxin ?_
      intro v hv r0 hr0 hm0 hc
      have : r0 = r := List.inj_on_of_nodup_map hnd hr0 hr hc
      subst this
      exact hno v hv hm0
    intro hc
    exact props.2 r' hr' (hc ▸ hsurvive)

theorem transfer_to_orm_single_rev_rel
    (nm : Str) (sub : List SubField) (matching : Option (List (Str × Str)))
    (targetAtt : Str) (items : List SubInput) (excl : Bool) (parentId : Nat)
    (pset : List Str) (st st' : OrmState)
    (hne : items ≠ [])
    (hok : transfer_to_orm
      { set := pset,
        fields := [{ name := nm,
                     data := TFieldData.listRel .revM2O sub matching targetAtt items }] }
      excl (some .SYNC) parentId st = .ok st') :
    ∃ lacc, syncLoop (revGetSubObj (some .SYNC) matching parentId st.rel) sub excl items
        { subobjects := [],
          existingIds := (st.rel.filter (fun r => decide (r.parent = parentId))).map SubObj.id,
          fresh := st.fresh } = .ok lacc ∧
      st'.rel = applySync st.rel lacc.subobjects lacc.existingIds := by
  simp only [transfer_to_orm, processFields, processField] at hok
  rw [if_neg hne] at hok
  simp only [if_true] at hok
  cases hl : syncLoop (revGetSubObj (some .SYNC) matching parentId st.rel) sub excl items
      { subobjects := [],
        existingIds := (st.rel.filter (fun r => decide (r.parent = parentId))).map SubObj.id,
        fresh := st.fresh } with
  | error e =>
    rw [hl] at hok
    simp at hok
  | ok lacc =>
    rw [hl] at hok
    simp at hok
    exact ⟨lacc, rfl, by rw [← hok]⟩

theorem transfer_to_orm_single_m2m_rel
    (nm : Str) (sub : List SubField) (matching : Option (List (Str × Str)))
    (targetAtt : Str) (items : List SubInput) (excl : Bool) (parentId : Nat)
    (pset : List Str) (st st' : OrmState)
    (hne : items ≠ [])
    (hok : transfer_to_orm
      { set := pset,
        fields := [{ name := nm,
                     data := TFieldData.listRel .m2m sub matching targetAtt items }] }
      excl (some .SYNC) parentId st = .ok st') :
    ∃ lacc, syncLoop (m2mGetSubObj (some .SYNC) parentId targetAtt st.thr) sub excl items
        { subobjects := [],
          existingIds := (st.thr.filter (fun r => decide (r.parent = parentId))).map SubObj.id,
          fresh := st.fresh } = .ok lacc ∧
      st'.thr = applySync st.thr lacc.subobjects lacc.existingIds := by
  simp only [transfer_to_orm, processFields, processField] at hok
  rw [if_neg hne] at hok
  simp only [if_true] at hok
  cases hl : syncLoop (m2mGetSubObj (some .SYNC) parentId targetAtt st.thr) sub excl items
      { subobjects := [],
        existingIds := (st.thr.filter (fun r => decide (r.parent = parentId))).map SubObj.id,
        fresh := st.fresh } with
  | error e =>
    rw [hl] at hok
    simp at hok
  | ok lacc =>
    rw [hl] at hok
    simp at hok
    exact ⟨lacc, rfl, by rw [← hok]⟩

/-- Claim C1, amended: for a list-shaped schema field bound to a reverse
many-to-one or many-to-many relation and carrying a non-empty input list,
`transfer_to_orm` with action SYNC reconciles the persisted related records
with the input list: each input item with a matching existing record (by
truthy id and parent, by the field's `sync_matching` columns, or — for m2m —
by source and target) ends up as that record updated with the item's fields;
each input item without a match ends up as a newly created record; and every
pre-existing related record of the parent matching no input item is gone.
The parent save, subobject saves and deletions are the single atomic state
update `applySync` (the `with atomic()` block). An empty input list is
skipped entirely and reconciles nothing
(`transfer_to_orm_sync_empty_counterexample`); the hypotheses bound input
ids below the id counter, keep record ids unique, and let no two input items
target the same record. -/
theorem transfer_to_orm_sync_reconciliation :
    (∀ (nm : Str) (sub : List SubField) (matching : Option (List (Str × Str)))
       (targetAtt : Str) (items : List SubInput) (excl : Bool) (parentId : Nat)
       (pset : List Str) (st st' : OrmState),
      items ≠ [] →
      (st.rel.map SubObj.id).Nodup →
      (∀ r ∈ st.rel, r.id < st.fresh) →
      (∀ v ∈ items, ∀ i, pyId v.id = some i → i < st.fresh) →
      items.Pairwise (fun v v' => ∀ r ∈ st.rel,
        ¬(revMatches matching parentId v r ∧ revMatches matching parentId v' r)) →
      (items.filterMap (fun v => pyId v.id)).Nodup →
      transfer_to_orm
        { set := pset,
          fields := [{ name := nm,
                       data := TFieldData.listRel .revM2O sub matching targetAtt items }] }
        excl (some .SYNC) parentId st = .ok st' →
      ((∀ v ∈ items, ∀ r ∈ st.rel, revMatches matching parentId v r →
          ({ id := r.id, parent := r.parent,
             attrs := applySub sub excl v.set v.vals r.attrs } : SubObj) ∈ st'.rel) ∧
       (∀ v ∈ items, (∀ r ∈ st.rel, ¬ revMatches matching parentId v r) →
          ∃ nid, ({ id := nid, parent := parentId,
                    attrs := applySub sub excl v.set v.vals [] } : SubObj) ∈ st'.rel) ∧
       (∀ r ∈ st.rel, r.parent = parentId →
          (∀ v ∈ items, ¬ revMatches matching parentId v r) →
          ∀ r' ∈ st'.rel, r'.id ≠ r.id))) ∧
    (∀ (nm : Str) (sub : List SubField) (matching : Option (List (Str × Str)))
       (targetAtt : Str) (items : List SubInput) (excl : Bool) (parentId : Nat)
       (pset : List Str) (st st' : OrmState),
      items ≠ [] →
      (st.thr.map SubObj.id).Nodup →
      (∀ r ∈ st.thr, r.id < st.fresh) →
      (∀ v ∈ items, ∀ i, pyId v.id = some i → i < st.fresh) →
      items.Pairwise (fun v v' => ∀ r ∈ st.thr,
        ¬(m2mMatches targetAtt parentId v r ∧ m2mMatches targetAtt parentId v' r)) →
      (items.filterMap (fun v => pyId v.id)).Nodup →
      transfer_to_orm
        { set := pset,
          fields := [{ name := nm,
                       data := TFieldData.listRel .m2m sub matching targetAtt items }] }
        excl (some .SYNC) parentId st = .ok st' →
      ((∀ v ∈ items, ∀ r ∈ st.thr, m2mMatches targetAtt parentId v r →
          ({ id := r.id, parent := r.parent,
             attrs := applySub sub excl v.set v.vals r.attrs } : SubObj) ∈ st'.thr) ∧
       (∀ v ∈ items, (∀ r ∈ st.thr, ¬ m2mMatches targetAtt parentId v r) →
          ∃ nid, ({ id := nid, parent := parentId,
                    attrs := applySub sub excl v.set v.vals (m2mInitAttrs targetAtt v) } :
              SubObj) ∈ st'.thr) ∧
       (∀ r ∈ st.thr, r.parent = parentId →
          (∀ v ∈ items, ¬ m2mMatches targetAtt parentId v r) →
          ∀ r' ∈ st'.thr, r'.id ≠ r.id))) := by
  constructor
  · intro nm sub matching targetAtt items excl parentId pset st st'
      hne hnd hlt hexpl hpair hids hok
    obtain ⟨lacc, hl, hrel⟩ := transfer_to_orm_single_rev_rel nm sub matching targetAtt
      items excl parentId pset st st' hne hok
    have hspec := sync_table_spec (revGetSubObj (some .SYNC) matching parentId st.rel)
      (revMatches matching parentId) (fun _ => []) st.rel parentId st.fresh sub excl
      items lacc (fun v r hm => hm.1) hnd hlt hl
      (fun v hv fresh so fresh' hbf hlt' hgo =>
        revGetSubObj_contract matching parentId st.rel st.fresh v (hexpl v hv)
          fresh so fresh' hbf hlt' hgo)
      hpair hids
    rw [hrel]
    exact hspec
  · intro nm sub matching targetAtt items excl parentId pset st st'
      hne hnd hlt hexpl hpair hids hok
    obtain ⟨lacc, hl, hthr⟩ := transfer_to_orm_single_m2m_rel nm sub matching targetAtt
      items excl parentId pset st st' hne hok
    have hspec := sync_table_spec (m2mGetSubObj (some .SYNC) parentId targetAtt st.thr)
      (m2mMatches targetAtt parentId) (m2mInitAttrs targetAtt) st.thr parentId st.fresh
      sub excl items lacc (fun v r hm => hm.1) hnd hlt hl
      (fun v hv fresh so fresh' hbf hlt' hgo =>
        m2mGetSubObj_contract parentId targetAtt st.thr st.fresh v
          fresh so fresh' hbf hlt' hgo)
      hpair hids
    rw [hthr]
    exact hspec

/-- Counterexample to C1 as stated: with an empty input list, the code skips
the field entirely (`if not value: continue`), so a pre-existing related
record of the parent that matches no input item is NOT deleted — the state
is returned unchanged, record id 1 of parent 5 included. -/
theorem transfer_to_orm_sync_empty_counterexample :
    transfer_to_orm
        { set := [],
          fields := [{ name := "subs".data,
                       data := TFieldData.listRel .revM2O [] none "t".data [] }] }
        false (some .SYNC) 5
        { obj := [], rel := [{ id := 1, parent := 5, attrs := [] }], thr := [], fresh := 10 } =
      .ok { obj := [], rel := [{ id := 1, parent := 5, attrs := [] }], thr := [],
            fresh := 10 } ∧
    ({ id := 1, parent := 5, attrs := [] } : SubObj) ∈
      [({ id := 1, parent := 5, attrs := [] } : SubObj)] := by
  exact ⟨rfl, by simp⟩

/-- Witness for the amended C1 at a concrete reverse many-to-one sync: input
item with id 1 updates record 1 (column `ca` becomes 7) and the unmatched
record 2 of the same parent is deleted. -/
theorem transfer_to_orm_sync_reconciliation_witness :
    (({ id := 1, parent := 5, attrs := applySub [{ name := "a".data, attname := "ca".data }] false ["a".data] [("a".data, Value.int 7)] [("ca".data, Value.int 1)] } : SubObj) ∈
      OrmState.rel { obj := [], rel := [{ id := 1, parent := 5, attrs := [("ca".data, Value.int 7)] }], thr := [], fresh := 10 }) ∧
    ({ id := 2, parent := 5, attrs := [] } : SubObj) ∉
      OrmState.rel { obj := [], rel := [{ id := 1, parent := 5, attrs := [("ca".data, Value.int 7)] }], thr := [], fresh := 10 } := by
  have hok : transfer_to_orm
      { set := [], fields := [{ name := "subs".data, data := TFieldData.listRel .revM2O [{ name := "a".data, attname := "ca".data }] none "t".data [{ id := some 1, set := ["a".data], vals := [("a".data, Value.int 7)] }] }] }
      false (some .SYNC) 5
      { obj := [], rel := [{ id := 1, parent := 5, attrs := [("ca".data, Value.int 1)] }, { id := 2, parent := 5, attrs := [] }], thr := [], fresh := 10 } =
      .ok { obj := [], rel := [{ id := 1, parent := 5, attrs := [("ca".data, Value.int 7)] }], thr := [], fresh := 10 } := by
    rfl
  have hconcl := transfer_to_orm_sync_reconciliation.1 "subs".data
    [{ name := "a".data, attname := "ca".data }] none "t".data
    [{ id := some 1, set := ["a".data], vals := [("a".data, Value.int 7)] }]
    false 5 []
    { obj := [], rel := [{ id := 1, parent := 5, attrs := [("ca".data, Value.int 1)] }, { id := 2, parent := 5, attrs := [] }], thr := [], fresh := 10 }
    { obj := [], rel := [{ id := 1, parent := 5, attrs := [("ca".data, Value.int 7)] }], thr := [], fresh := 10 }
    (by simp) (by decide) (by decide) (by decide) (by simp) (by decide) hok
  constructor
  · exact hconcl.1 { id := some 1, set := ["a".data], vals := [("a".data, Value.int 7)] }
      (by simp) { id := 1, parent := 5, attrs := [("ca".data, Value.int 1)] }
      (by simp) ⟨rfl, rfl⟩
  · intro hmem
    refine hconcl.2.2 { id := 2, parent := 5, attrs := [] } (by simp) rfl ?hnm
      { id := 2, parent := 5, attrs := [] } hmem rfl
    intro v hv hm
    simp only [List.mem_singleton] at hv
    subst hv
    have h2 : (2 : Nat) = 1 := hm.2
    omega

/-- Truthiness of a value (`bool(v)` in Python): None, 0 and the empty
string are falsy. -/
def pyTruthyV : Value → Bool
  | .none => false
  | .int n => n != 0
  | .str s => !s.isEmpty

/-- A local ORM record as the event subscriber sees it: its `updated_at`
column and its other attributes. -/
structure LocalRec where
  updatedAt : Int
  attrs : List (Str × Value)
deriving DecidableEq

/-- The `before_transfer` guard of `EventSubscription`: `delete_on_status`
is set and truthy, and the event data's `status` equals it. -/
def deleteStatusMatches (deleteOnStatus : Option Value)
    (dataVals : List (Str × Value)) : Bool :=
  match deleteOnStatus with
  | Option.none => false
  | some s => pyTruthyV s && decide (getA dataVals "status".data = s)

/-- `EventSubscription.op_create_or_update` (src/olympus/events/subscribe.py
lines 144-172) acting on the subscription's local record. `hasUpd` says
whether the ORM model has an `updated_at` attribute (otherwise both the
stale check and the assignment hit the `except AttributeError: pass`
branches); `local = none` models `orm_model.DoesNotExist`, answered by
`create_orm_obj`. The stale check discards the event when the record's
`updated_at` is strictly later than the event's `occurred_at`; otherwise
`before_transfer` may delete the record and `raise Break` when
`delete_on_status` matches the data's status (for a just-created record
`op_delete` returns early, so no record is persisted either way);
otherwise `updated_at` is set to `occurred_at` and the event data is
transferred onto the record's columns (`transfer_to_orm` with the default
`exclude_unset=False`). -/
def op_create_or_update (hasUpd : Bool) (deleteOnStatus : Option Value)
    (sub : List SubField) (occurredAt : Int) (dataSet : List Str)
    (dataVals : List (Str × Value)) (loc : Option LocalRec) :
    Option LocalRec :=
  match loc with
  | some rec =>
    if hasUpd ∧ occurredAt < rec.updatedAt then some rec
    else if deleteStatusMatches deleteOnStatus dataVals then Option.none
    else some { updatedAt := if hasUpd then occurredAt else rec.updatedAt,
                attrs := applySub sub false dataSet dataVals rec.attrs }
  | Option.none =>
    if deleteStatusMatches deleteOnStatus dataVals then Option.none
    else some { updatedAt := if hasUpd then occurredAt else 0,
                attrs := applySub sub false dataSet dataVals [] }

/-- Counterexample to C9 as stated: the record exists and is not stale
(updated_at 3 < occurred_at 5), yet because `delete_on_status` matches the
event data's status the record is deleted by `before_transfer` instead of
having its `updated_at` set to `occurred_at` and the data transferred. -/
theorem op_create_or_update_delete_counterexample :
    op_create_or_update true (some (Value.str "gone".data)) [] 5 ["status".data]
        [("status".data, Value.str "gone".data)]
        (some { updatedAt := 3, attrs := [] }) = Option.none ∧
    (3 : Int) < 5 := by
  exact ⟨rfl, by decide⟩

/-- C9 (amended). Stale-event protection in
`EventSubscription.op_create_or_update`: (1) when the local record exists
(on a model with `updated_at`) and its `updated_at` is strictly later than
the event's `occurred_at`, the event is discarded and the record is
unchanged; (2) otherwise, unless `delete_on_status` matches the data's
status, the record's `updated_at` is set to the event's `occurred_at` and
the event data is transferred onto it; (3) when `delete_on_status` does
match, the record is deleted instead (the correction to the claim's
unconditional "otherwise" clause); (4) on `DoesNotExist` a fresh record is
created and filled the same way; (5) consequently a surviving record's
`updated_at` never moves backwards. -/
theorem op_create_or_update_stale_protection (hasUpd : Bool)
    (dos : Option Value) (sub : List SubField) (occ : Int) (dset : List Str)
    (dvals : List (Str × Value)) :
    (∀ rec : LocalRec, hasUpd = true → occ < rec.updatedAt →
      op_create_or_update hasUpd dos sub occ dset dvals (some rec) = some rec) ∧
    (∀ rec : LocalRec, ¬ (hasUpd = true ∧ occ < rec.updatedAt) →
      deleteStatusMatches dos dvals = false →
      op_create_or_update hasUpd dos sub occ dset dvals (some rec) =
        some { updatedAt := if hasUpd then occ else rec.updatedAt,
               attrs := applySub sub false dset dvals rec.attrs }) ∧
    (∀ rec : LocalRec, ¬ (hasUpd = true ∧ occ < rec.updatedAt) →
      deleteStatusMatches dos dvals = true →
      op_create_or_update hasUpd dos sub occ dset dvals (some rec) =
        Option.none) ∧
    (deleteStatusMatches dos dvals = false →
      op_create_or_update hasUpd dos sub occ dset dvals Option.none =
        some { updatedAt := if hasUpd then occ else 0,
               attrs := applySub sub false dset dvals [] }) ∧
    (∀ rec rec' : LocalRec,
      op_create_or_update hasUpd dos sub occ dset dvals (some rec) = some rec' →
      rec.updatedAt ≤ rec'.updatedAt) := by
  refine ⟨?d, ?u, ?dl, ?c, ?m⟩
  · intro rec hu hlt
    simp only [op_create_or_update]
    rw [if_pos ⟨hu, hlt⟩]
  · intro rec hnot hds
    simp only [op_create_or_update]
    rw [if_neg hnot, hds]
    simp
  · intro rec hnot hds
    simp only [op_create_or_update]
    rw [if_neg hnot, hds]
    simp
  · intro hds
    simp only [op_create_or_update]
    rw [hds]
    simp
  · intro rec rec' h
    simp only [op_create_or_update] at h
    by_cases hc : hasUpd = true ∧ occ < rec.updatedAt
    · rw [if_pos hc] at h
      obtain rfl := Option.some.inj h
      exact le_refl _
    · rw [if_neg hc] at h
      cases hb : deleteStatusMatches dos dvals
      · rw [hb] at h
        simp only [Bool.false_eq_true, if_false] at h
        obtain rfl := Option.some.inj h
        by_cases hu : hasUpd = true
        · rw [if_pos hu]
          have hnl : ¬ occ < rec.updatedAt := fun hlt => hc ⟨hu, hlt⟩
          exact not_lt.mp hnl
        · rw [if_neg hu]
      · rw [hb] at h
        simp at h

/-- Witness for the amended C9 at concrete inputs: a non-stale record
(updated_at 3, occurred_at 5) gets updated_at 5 and column `ca` set from
the data, while a stale record (updated_at 9) is left untouched. -/
theorem op_create_or_update_stale_protection_witness :
    op_create_or_update true Option.none [{ name := "a".data, attname := "ca".data }] 5
        ["a".data] [("a".data, Value.int 7)] (some { updatedAt := 3, attrs := [] }) =
      some { updatedAt := 5, attrs := [("ca".data, Value.int 7)] } ∧
    op_create_or_update true Option.none [{ name := "a".data, attname := "ca".data }] 5
        ["a".data] [("a".data, Value.int 7)] (some { updatedAt := 9, attrs := [] }) =
      some { updatedAt := 9, attrs := [] } := by
  constructor
  · have h := (op_create_or_update_stale_protection true Option.none
      [{ name := "a".data, attname := "ca".data }] 5 ["a".data]
      [("a".data, Value.int 7)]).2.1 { updatedAt := 3, attrs := [] }
      (by decide) rfl
    exact h.trans (by rfl)
  · exact (op_create_or_update_stale_protection true Option.none
      [{ name := "a".data, attname := "ca".data }] 5 ["a".data]
      [("a".data, Value.int 7)]).1 { updatedAt := 9, attrs := [] } rfl (by decide)
